import Mathlib

/-!
Verification of the hierarchical keyword taxonomy engine of the
seo-copilot-app repository.

The definitions below are a shallow embedding of the TypeScript source,
chiefly `src/components/KeywordGenerator.tsx` together with the record
shapes declared in the repository's `types.ts`.  JavaScript objects whose
keys carry boolean "selected" flags (the `SelectedKeywords` record) are
modelled as `Finset String`: the component's updater ends with
`Object.fromEntries(Object.entries(newSelection).filter(([, v]) => v))`,
so between updates the record is exactly the set of keys mapped to `true`,
and every read performed during an update is a truthiness test, which
coincides with set membership.  JavaScript string helpers used by the
source (`split('-')`, `join('-')`, `startsWith`, `trim`, decimal
rendering of numbers in template literals) are embedded explicitly so
that their behaviour is under our control rather than that of library
functions with different semantics.
-/

/-! ### JavaScript string primitives -/

/-- Characters treated as whitespace by JavaScript's `String.trim` and by
the `\s` regex class, restricted to the ASCII range that can occur in the
application's inputs. -/
def isSpaceChar (c : Char) : Bool :=
  c = ' ' || c = '\t' || c = '\n' || c = '\r' || c = '\x0b' || c = '\x0c'

/-- Embedding of JavaScript `String.prototype.trim`. -/
def jsTrim (s : String) : String :=
  ⟨((s.data.dropWhile isSpaceChar).reverse.dropWhile isSpaceChar).reverse⟩

/-- Embedding of JavaScript `a.startsWith(b)`. -/
def jsStartsWith (s p : String) : Bool :=
  p.data.isPrefixOf s.data

/-- Worker for `splitDash`: accumulates the current fragment (reversed)
while scanning the character list. -/
def splitDashAux : List Char → List Char → List (List Char)
  | [], acc => [acc.reverse]
  | c :: cs, acc =>
    if c = '-' then acc.reverse :: splitDashAux cs []
    else splitDashAux cs (c :: acc)

/-- Embedding of JavaScript `s.split('-')`. -/
def splitDash (s : String) : List String :=
  (splitDashAux s.data []).map fun l => ⟨l⟩

/-- Embedding of JavaScript `parts.join('-')`. -/
def joinDash : List String → String
  | [] => ""
  | [x] => x
  | x :: y :: xs => x ++ "-" ++ joinDash (y :: xs)

/-- Decimal digit character for a value below ten. -/
def digitChar (n : Nat) : Char := Char.ofNat (48 + n)

/-- Worker for `natToStr`, producing the decimal digits most significant
first in front of `acc`.  The recursion is structural on a fuel counter
so that the kernel can evaluate it; a fuel of `n + 1` always suffices
because a number has at most as many digits as its successor. -/
def natToStrAux : Nat → Nat → List Char → List Char
  | 0, _, acc => acc
  | fuel + 1, n, acc =>
    if n < 10 then digitChar (n % 10) :: acc
    else natToStrAux fuel (n / 10) (digitChar (n % 10) :: acc)

/-- Embedding of the decimal rendering JavaScript applies to a
non-negative integer interpolated into a template literal. -/
def natToStr (n : Nat) : String := ⟨natToStrAux (n + 1) n []⟩

/-! ### Data model (`types.ts`) -/

/-- Raw level-2 entry of a generation result (`Level2Node` in
`types.ts`): no identifier yet, terms are plain strings. -/
structure Level2Node where
  keyword : String
  type : String
  lsi : List String
deriving DecidableEq, Repr

/-- Raw level-1 entry of a generation result (`Level1Node` in
`types.ts`). -/
structure Level1Node where
  keyword : String
  type : String
  pageType : String
  children : List Level2Node
deriving DecidableEq, Repr

/-- Original keyword groups of a generation result. -/
structure OriginalKeywords where
  traffic : List String
  comparison : List String
  conversion : List String
deriving DecidableEq, Repr

/-- Raw generation result (`KeywordMap` in `types.ts`). -/
structure KeywordMap where
  coreUserIntent : String
  originalKeywords : OriginalKeywords
  keywordHierarchy : List Level1Node
deriving DecidableEq, Repr

/-- Renderable LSI term (`RenderLsiNode`): the `isNew` field is optional
in the source (`isNew?: boolean`), hence `Option Bool`. -/
structure RenderLsiNode where
  id : String
  text : String
  isNew : Option Bool
deriving DecidableEq, Repr

/-- Renderable level-2 node (`RenderLevel2Node`). -/
structure RenderLevel2Node where
  id : String
  keyword : String
  type : String
  lsi : List RenderLsiNode
deriving DecidableEq, Repr

/-- Renderable level-1 node (`RenderLevel1Node`). -/
structure RenderLevel1Node where
  id : String
  keyword : String
  type : String
  pageType : String
  children : List RenderLevel2Node
deriving DecidableEq, Repr

/-- Persisted LSI term (`SavedLsiNode`): exactly an identifier and a
text, nothing else. -/
structure SavedLsiNode where
  id : String
  text : String
deriving DecidableEq, Repr

/-- Persisted level-2 node (`SavedLevel2Node`). -/
structure SavedLevel2Node where
  id : String
  keyword : String
  type : String
  lsi : List SavedLsiNode
deriving DecidableEq, Repr

/-- Persisted level-1 node (`SavedLevel1Node`). -/
structure SavedLevel1Node where
  id : String
  keyword : String
  type : String
  pageType : String
  children : List SavedLevel2Node
deriving DecidableEq, Repr

/-- Persisted sub-project record (`KeywordSubProject`); the
`translations` record is modelled as an association list. -/
structure KeywordSubProject where
  id : String
  name : String
  parentProjectId : String
  savedAt : String
  modelUsed : String
  keywords : List SavedLevel1Node
  translations : List (String × String)
deriving DecidableEq, Repr

/-! ### Tree Builder (`transformToRenderableMap`) -/

/-- Embedding of `transformToRenderableMap`: attach position-encoded
identifiers `l1-{i}`, `l1-{i}-l2-{j}`, `l1-{i}-l2-{j}-lsi-{k}` to a raw
generation result.  The raw term strings are typed `string[]`, so the
source's defensive `(l2.lsi || [])` is the identity here; the freshly
built LSI objects carry no `isNew` key, hence `none`. -/
def transformToRenderableMap (m : KeywordMap) : List RenderLevel1Node :=
  m.keywordHierarchy.enum.map fun p =>
    { id := "l1-" ++ natToStr p.1
      keyword := p.2.keyword
      type := p.2.type
      pageType := p.2.pageType
      children := p.2.children.enum.map fun q =>
        { id := "l1-" ++ natToStr p.1 ++ "-l2-" ++ natToStr q.1
          keyword := q.2.keyword
          type := q.2.type
          lsi := q.2.lsi.enum.map fun r =>
            { id := "l1-" ++ natToStr p.1 ++ "-l2-" ++ natToStr q.1 ++
                      "-lsi-" ++ natToStr r.1
              text := r.2
              isNew := none } } }

/-- Embedding of `getParentId`: split on `'-'`, give up when at most two
segments remain, otherwise drop the last two segments and re-join. -/
def getParentId (childId : String) : Option String :=
  let parts := splitDash childId
  if parts.length ≤ 2 then none
  else some (joinDash (parts.take (parts.length - 2)))

/-! ### Selection State Manager (`handleSelectionChange` and helpers) -/

/-- Result of `findNodeById`, which can address a node of any of the
three levels (the source discriminates with `isLevel1Node` /
`isLevel2Node`). -/
inductive FoundNode where
  | l1 (n : RenderLevel1Node)
  | l2 (n : RenderLevel2Node)
  | lsi (n : RenderLsiNode)
deriving DecidableEq, Repr

/-- Scan of the LSI list of one level-2 node, in order. -/
def findInLsiList (ts : List RenderLsiNode) (id : String) : Option FoundNode :=
  match ts with
  | [] => none
  | t :: rest => if t.id = id then some (.lsi t) else findInLsiList rest id

/-- Scan of a list of level-2 nodes: each node is checked before its LSI
terms, matching the nesting of the source's loops. -/
def findInL2List (cs : List RenderLevel2Node) (id : String) : Option FoundNode :=
  match cs with
  | [] => none
  | c :: rest =>
    if c.id = id then some (.l2 c)
    else
      match findInLsiList c.lsi id with
      | some r => some r
      | none => findInL2List rest id

/-- Embedding of `findNodeById`: first match in a depth-first, in-order
scan of the tree. -/
def findNodeById (tree : List RenderLevel1Node) (id : String) : Option FoundNode :=
  match tree with
  | [] => none
  | n :: rest =>
    if n.id = id then some (.l1 n)
    else
      match findInL2List n.children id with
      | some r => some r
      | none => findNodeById rest id

/-- Write of one entry of the selection record: `newSelection[id] = true`
adds the key, `newSelection[id] = false` (or `delete newSelection[id]`)
removes it, because the updater's final cleanup keeps only `true`
entries. -/
def setSel (sel : Finset String) (id : String) (b : Bool) : Finset String :=
  if b then insert id sel else sel.erase id

/-- Embedding of the updater's inner `cascadeDown`.  The source recursion
runs on child identifiers resolved through `findNodeById`; on any tree
whose level-2 identifiers resolve to level-2 nodes it descends at most
two levels, so a fuel of `3` reproduces it exactly there. -/
def cascadeDown (tree : List RenderLevel1Node) (fuel : Nat) (sel : Finset String)
    (id : String) (checked : Bool) : Finset String :=
  match fuel with
  | 0 => sel
  | fuel + 1 =>
    match findNodeById tree id with
    | some (.l1 n) =>
      n.children.foldl
        (fun s c => cascadeDown tree fuel (setSel s c.id checked) c.id checked) sel
    | some (.l2 n) => n.lsi.foldl (fun s t => setSel s t.id checked) sel
    | _ => sel

/-- Identifiers of the direct children consulted by `cascadeUp`
(`getChildren` in the source); an LSI term has none, which makes the
walk stop just as the source's `isLevel1Node || isLevel2Node` test
does. -/
def getChildIds : FoundNode → Option (List String)
  | .l1 n => some (n.children.map fun c => c.id)
  | .l2 n => some (n.lsi.map fun t => t.id)
  | .lsi _ => none

/-- Embedding of the updater's inner `cascadeUp`.  Each `getParentId`
step removes two of the dash-separated segments, so a fuel equal to the
number of segments of the starting identifier always outlasts the
source's recursion; the fuel-exhausted and parent-less outcomes
coincide (both return the set unchanged). -/
def cascadeUp (tree : List RenderLevel1Node) (fuel : Nat) (sel : Finset String)
    (id : String) : Finset String :=
  match fuel with
  | 0 => sel
  | fuel + 1 =>
    match getParentId id with
    | none => sel
    | some pid =>
      match (findNodeById tree pid).bind getChildIds with
      | none => sel
      | some kids =>
        let sel' := setSel sel pid (kids.all fun k => decide (k ∈ sel))
        cascadeUp tree fuel sel' pid

/-- Embedding of `handleSelectionChange`: write the toggled entry,
cascade downward, cascade upward, and (implicitly, through the `Finset`
representation) drop the `false` entries. -/
def handleSelectionChange (tree : List RenderLevel1Node) (sel : Finset String)
    (id : String) (checked : Bool) : Finset String :=
  cascadeUp tree (splitDash id).length
    (cascadeDown tree 3 (setSel sel id checked) id checked) id

/-- Identifiers of all nodes of a tree, in document order. -/
def allNodeIds (tree : List RenderLevel1Node) : List String :=
  tree.flatMap fun n =>
    n.id :: n.children.flatMap fun c => c.id :: c.lsi.map fun t => t.id

/-- Selection sets reachable from the empty selection by toggles on
nodes of the tree. -/
inductive Reachable (tree : List RenderLevel1Node) : Finset String → Prop where
  | empty : Reachable tree ∅
  | step {sel : Finset String} (id : String) (v : Bool) :
      Reachable tree sel → id ∈ allNodeIds tree →
      Reachable tree (handleSelectionChange tree sel id v)

/-- Well-formedness of a renderable tree, as guaranteed by the Tree
Builder: `findNodeById` resolves every identifier to its node,
`getParentId` recovers the actual parent, child identifiers extend their
parent's, and equal identifiers can only belong to one position of the
tree. -/
structure WF (tree : List RenderLevel1Node) : Prop where
  findL1 : ∀ n ∈ tree, findNodeById tree n.id = some (.l1 n)
  findL2 : ∀ n ∈ tree, ∀ c ∈ n.children, findNodeById tree c.id = some (.l2 c)
  findLsi : ∀ n ∈ tree, ∀ c ∈ n.children, ∀ t ∈ c.lsi,
    findNodeById tree t.id = some (.lsi t)
  parentL1 : ∀ n ∈ tree, getParentId n.id = none
  parentL2 : ∀ n ∈ tree, ∀ c ∈ n.children, getParentId c.id = some n.id
  parentLsi : ∀ n ∈ tree, ∀ c ∈ n.children, ∀ t ∈ c.lsi,
    getParentId t.id = some c.id
  startL2 : ∀ n ∈ tree, ∀ c ∈ n.children, jsStartsWith c.id n.id = true
  startLsi : ∀ n ∈ tree, ∀ c ∈ n.children, ∀ t ∈ c.lsi,
    jsStartsWith t.id c.id = true
  uniqL1 : ∀ n ∈ tree, ∀ n' ∈ tree, n.id = n'.id → n = n'
  uniqL2 : ∀ n ∈ tree, ∀ c ∈ n.children, ∀ n' ∈ tree, ∀ c' ∈ n'.children,
    c.id = c'.id → n = n' ∧ c = c'
  uniqLsi : ∀ n ∈ tree, ∀ c ∈ n.children, ∀ t ∈ c.lsi,
    ∀ n' ∈ tree, ∀ c' ∈ n'.children, ∀ t' ∈ c'.lsi,
    t.id = t'.id → n = n' ∧ c = c' ∧ t = t'

/-! ### Versioning & Persistence Adapter -/

/-- Embedding of `name.replace(/\s\(Version \d+\)$/, '')` restricted to
the reversed character list: if the reversed string starts with `)`,
one or more digits, the reversal of `"(Version "`, and a whitespace
character, return the remainder. -/
def stripVersionRev (rcs : List Char) : Option (List Char) :=
  match rcs with
  | ')' :: rest =>
    let digits := rest.takeWhile Char.isDigit
    let rest2 := rest.dropWhile Char.isDigit
    if digits = [] then none
    else
      if (" noisreV(".data).isPrefixOf rest2 then
        match rest2.drop 9 with
        | c :: rest4 => if isSpaceChar c then some rest4 else none
        | [] => none
      else none
  | _ => none

/-- Embedding of `name.replace(/\s\(Version \d+\)$/, '').trim()`: strip a
trailing `" (Version N)"` suffix when present, then trim. -/
def stripVersionSuffix (name : String) : String :=
  match stripVersionRev name.data.reverse with
  | some rest => jsTrim ⟨rest.reverse⟩
  | none => jsTrim name

/-- Embedding of the versioning logic of `handleSaveSubProject`
(the `finalSubProjectName` computation): trim the requested name, strip
its version suffix to obtain the base name, collect the lineage (same
parent, same stripped base name), and bump the version when the literal
trimmed name already occurs in the lineage. -/
def computeFinalSubProjectName (keywordLibrary : List KeywordSubProject)
    (subProjectName : String) (finalParentProjectId : String) : String :=
  let finalName := jsTrim subProjectName
  let baseName := stripVersionSuffix finalName
  let lineage := keywordLibrary.filter fun sp =>
    sp.parentProjectId = finalParentProjectId ∧
      stripVersionSuffix sp.name = baseName
  if lineage.any (fun sp => sp.name = finalName) then
    baseName ++ " (Version " ++ natToStr (lineage.length + 1) ++ ")"
  else finalName

/-- Gate `Object.keys(selectedKeywords).some(key => key.startsWith(nid))`
used by the pruning walk before looking at a subtree. -/
def existsStarts (sel : Finset String) (nid : String) : Prop :=
  ∃ k ∈ sel, jsStartsWith k nid = true

instance (sel : Finset String) (nid : String) : Decidable (existsStarts sel nid) :=
  Finset.decidableExistsAndFinset

/-- Pruning of one level-2 node on save: keep the selected LSI terms
(projected to `{id, text}`), and keep the node itself when it is
selected or retains a term; the `existsStarts` gate mirrors the
source's early `return`. -/
def pruneL2 (sel : Finset String) (l2 : RenderLevel2Node) : Option SavedLevel2Node :=
  if existsStarts sel l2.id then
    let savedLsi := (l2.lsi.filter fun t => decide (t.id ∈ sel)).map
      fun t => ({ id := t.id, text := t.text } : SavedLsiNode)
    if l2.id ∈ sel ∨ savedLsi ≠ [] then
      some { id := l2.id, keyword := l2.keyword, type := l2.type, lsi := savedLsi }
    else none
  else none

/-- Pruning of one level-1 node on save. -/
def pruneL1 (sel : Finset String) (l1 : RenderLevel1Node) : Option SavedLevel1Node :=
  if existsStarts sel l1.id then
    let savedChildren := l1.children.filterMap (pruneL2 sel)
    if l1.id ∈ sel ∨ savedChildren ≠ [] then
      some { id := l1.id, keyword := l1.keyword, type := l1.type,
             pageType := l1.pageType, children := savedChildren }
    else none
  else none

/-- Embedding of the pruning walk of `handleSaveSubProject` that builds
`savedHierarchy`. -/
def pruneTree (sel : Finset String) (tree : List RenderLevel1Node) :
    List SavedLevel1Node :=
  tree.filterMap (pruneL1 sel)

/-- Identifiers collected into `savedNodeIds` during the pruning walk,
in the source's insertion order (terms, then their level-2 node, then
the level-1 node). -/
def savedIds (h : List SavedLevel1Node) : List String :=
  h.flatMap fun n =>
    (n.children.flatMap fun c => (c.lsi.map fun t => t.id) ++ [c.id]) ++ [n.id]

/-- Lookup in a JavaScript object modelled as an association list. -/
def jsGet (m : List (String × String)) (k : String) : Option String :=
  (m.find? fun p => p.1 = k).map fun p => p.2

/-- Embedding of the `savedTranslations` loop: copy the overlay entry of
every retained identifier, skipping absent and (by JavaScript
truthiness) empty-string values. -/
def savedTranslations (translations : List (String × String))
    (h : List SavedLevel1Node) : List (String × String) :=
  (savedIds h).filterMap fun nid =>
    (jsGet translations nid).bind fun v =>
      if v = "" then none else some (nid, v)

/-! ### Filter View (`filteredKeywordMap`, `PAGE_TYPE_MAP`) -/

/-- The filter criteria held in `FilterBar`'s `FilterState`; an empty
string means "no constraint" (JavaScript truthiness). -/
structure FilterState where
  category : String
  pageType : String
  userBehavior : String
deriving DecidableEq, Repr

/-- Embedding of the `PAGE_TYPE_MAP` normalization table: legacy English
page-type labels map to the Chinese labels used by the filters, and the
Chinese labels map to themselves; anything else is absent
(`undefined`). -/
def PAGE_TYPE_MAP (k : String) : Option String :=
  if k = "Product Detail Pages" then some "产品详情类"
  else if k = "Article/Blog Pages" then some "文章类"
  else if k = "Hub/Category Pages" then some "聚合类"
  else if k = "产品详情类" then some "产品详情类"
  else if k = "文章类" then some "文章类"
  else if k = "聚合类" then some "聚合类"
  else none

/-- Embedding of the `filteredKeywordMap` memo: with no active criteria
the tree itself is returned; otherwise level-2 children are filtered by
the user-behavior stage label's leading segment, then level-1 nodes by
category, normalized page type, and non-emptiness of the remaining
children. -/
def filteredKeywordMap (keywordMap : List RenderLevel1Node)
    (filters : FilterState) : List RenderLevel1Node :=
  if filters.category = "" ∧ filters.pageType = "" ∧ filters.userBehavior = "" then
    keywordMap
  else
    (keywordMap.map fun l1 =>
      let l1Children :=
        if filters.userBehavior ≠ "" then
          l1.children.filter fun l2 => jsStartsWith l2.type filters.userBehavior
        else l1.children
      { l1 with children := l1Children }).filter fun l1 =>
      (filters.category = "" ∨ l1.type = filters.category) ∧
      (filters.pageType = "" ∨ PAGE_TYPE_MAP l1.pageType = some filters.pageType) ∧
      l1.children ≠ []

/-! ### Augmentation Merger (`handleGenerateLsi`'s state update) -/

/-- Embedding of the per-node merge performed inside `setKeywordMap` by
`handleGenerateLsi`: candidates whose text already occurs on the node
are dropped, survivors are appended with continuing sequential
identifiers and `isNew = true`, and the pre-existing terms have their
`isNew` flag reset to `false`. -/
def mergeLsi (l2 : RenderLevel2Node) (newLsis : List String) : RenderLevel2Node :=
  let existingLsiTexts := l2.lsi.map fun l => l.text
  let uniqueNewLsis := ((newLsis.filter fun nl => ¬ nl ∈ existingLsiTexts).enum).map
    fun p => ({ id := l2.id ++ "-lsi-" ++ natToStr (l2.lsi.length + p.1),
                text := p.2, isNew := some true } : RenderLsiNode)
  { l2 with lsi := (l2.lsi.map fun l => { l with isNew := some false }) ++ uniqueNewLsis }

/-- Embedding of the whole `setKeywordMap` updater of
`handleGenerateLsi`: nodes other than the addressed level-2 node under
the addressed level-1 node are returned unchanged. -/
def applyLsiUpdate (tree : List RenderLevel1Node) (l1Id l2Id : String)
    (newLsis : List String) : List RenderLevel1Node :=
  tree.map fun l1 =>
    if l1.id ≠ l1Id then l1
    else { l1 with children := l1.children.map fun l2 =>
      if l2.id ≠ l2Id then l2 else mergeLsi l2 newLsis }

/-! ### Save validation (`isSaveDisabled` and the guarded handler) -/

/-- The save-modal form state consulted by the validation logic. -/
structure SaveFormState where
  subProjectName : String
  parentProjectId : String
  newParentProjectName : String
deriving DecidableEq, Repr

/-- Embedding of the `isSaveDisabled` memo guarding the save button. -/
def isSaveDisabled (f : SaveFormState) : Bool :=
  if jsTrim f.subProjectName = "" then true
  else if f.parentProjectId = "create_new" then jsTrim f.newParentProjectName = ""
  else f.parentProjectId = ""

/-- Calls issued to the persistence service (Supabase inserts) during a
save attempt. -/
inductive PersistCall where
  | insertProject (name : String)
  | insertSubProject (name : String) (parentProjectId : String)
deriving DecidableEq, Repr

/-- Persistence calls issued by `handleSaveSubProject` when it runs, in
order.  `now` stands for `Date.now()`, used to mint the identifier of a
newly created parent project; a freshly inserted project's row id is
that minted identifier, which is what `finalParentProjectId` becomes in
the create-new flow. -/
def handleSaveCalls (f : SaveFormState) (keywordLibrary : List KeywordSubProject)
    (tree : List RenderLevel1Node) (sel : Finset String) (now : Nat) :
    List PersistCall :=
  if f.parentProjectId = "create_new" ∧ jsTrim f.newParentProjectName = "" then []
  else
    let preCalls :=
      if f.parentProjectId = "create_new" then
        [PersistCall.insertProject (jsTrim f.newParentProjectName)]
      else []
    let finalParentProjectId :=
      if f.parentProjectId = "create_new" then "proj-" ++ natToStr now
      else f.parentProjectId
    if jsTrim f.subProjectName = "" ∨ finalParentProjectId = "" then preCalls
    else if pruneTree sel tree = [] then preCalls
    else
      preCalls ++
        [PersistCall.insertSubProject
          (computeFinalSubProjectName keywordLibrary f.subProjectName
            finalParentProjectId)
          finalParentProjectId]

/-- The save attempt as it is reachable through the UI: a disabled
button never invokes the handler. -/
def gatedSaveCalls (f : SaveFormState) (keywordLibrary : List KeywordSubProject)
    (tree : List RenderLevel1Node) (sel : Finset String) (now : Nat) :
    List PersistCall :=
  if isSaveDisabled f then [] else handleSaveCalls f keywordLibrary tree sel now

/-! ### Facts about the string primitives -/

theorem natToStrAux_mem (fuel n : Nat) (acc : List Char) :
    ∀ c ∈ natToStrAux fuel n acc, c ∈ acc ∨ ∃ r, r < 10 ∧ c = digitChar r := by
  induction fuel generalizing n acc with
  | zero =>
    intro c hc
    exact Or.inl hc
  | succ fuel ih =>
    intro c hc
    rw [natToStrAux] at hc
    by_cases h : n < 10
    · rw [if_pos h] at hc
      rcases List.mem_cons.mp hc with h1 | h2
      · exact Or.inr ⟨n % 10, Nat.mod_lt _ (by norm_num), h1⟩
      · exact Or.inl h2
    · rw [if_neg h] at hc
      rcases ih (n / 10) _ c hc with h1 | h2
      · rcases List.mem_cons.mp h1 with h1 | h1
        · exact Or.inr ⟨n % 10, Nat.mod_lt _ (by norm_num), h1⟩
        · exact Or.inl h1
      · exact Or.inr h2

theorem digitChar_ne_dash {r : Nat} (hr : r < 10) : digitChar r ≠ '-' := by
  interval_cases r <;> decide

theorem natToStr_no_dash (n : Nat) : ∀ c ∈ (natToStr n).data, c ≠ '-' := by
  intro c hc
  rcases natToStrAux_mem (n + 1) n [] c hc with h | ⟨r, hr, rfl⟩
  · simp at h
  · exact digitChar_ne_dash hr

theorem splitDashAux_no_dash (l : List Char) (acc : List Char)
    (h : ∀ c ∈ l, c ≠ '-') : splitDashAux l acc = [acc.reverse ++ l] := by
  induction l generalizing acc with
  | nil => simp [splitDashAux]
  | cons c cs ih =>
    have hc : c ≠ '-' := h c (by simp)
    rw [splitDashAux, if_neg hc, ih _ fun x hx => h x (by simp [hx])]
    simp

theorem splitDashAux_append (l r : List Char) (acc : List Char)
    (h : ∀ c ∈ l, c ≠ '-') :
    splitDashAux (l ++ '-' :: r) acc = (acc.reverse ++ l) :: splitDashAux r [] := by
  induction l generalizing acc with
  | nil => simp [splitDashAux]
  | cons c cs ih =>
    have hc : c ≠ '-' := h c (by simp)
    rw [List.cons_append, splitDashAux, if_neg hc,
      ih _ fun x hx => h x (by simp [hx])]
    simp

/-! ### Tree Builder identifier shapes (claim C8) -/

theorem splitDash_l1_id (i : Nat) :
    splitDash ("l1-" ++ natToStr i) = ["l1", natToStr i] := by
  have h : ("l1-" ++ natToStr i).data = ['l', '1'] ++ '-' :: (natToStr i).data := by
    simp [String.data_append]
  rw [splitDash, h, splitDashAux_append _ _ _ (by decide),
    splitDashAux_no_dash _ _ (natToStr_no_dash i)]
  rfl

theorem splitDash_l2_id (i j : Nat) :
    splitDash ("l1-" ++ natToStr i ++ "-l2-" ++ natToStr j) =
      ["l1", natToStr i, "l2", natToStr j] := by
  have h : ("l1-" ++ natToStr i ++ "-l2-" ++ natToStr j).data =
      ['l', '1'] ++ '-' :: ((natToStr i).data ++ '-' ::
        (['l', '2'] ++ '-' :: (natToStr j).data)) := by
    simp [String.data_append]
  rw [splitDash, h, splitDashAux_append _ _ _ (by decide),
    splitDashAux_append _ _ _ (natToStr_no_dash i),
    splitDashAux_append _ _ _ (by decide),
    splitDashAux_no_dash _ _ (natToStr_no_dash j)]
  rfl

theorem splitDash_lsi_id (i j k : Nat) :
    splitDash ("l1-" ++ natToStr i ++ "-l2-" ++ natToStr j ++ "-lsi-" ++ natToStr k) =
      ["l1", natToStr i, "l2", natToStr j, "lsi", natToStr k] := by
  have h : ("l1-" ++ natToStr i ++ "-l2-" ++ natToStr j ++ "-lsi-" ++
      natToStr k).data =
      ['l', '1'] ++ '-' :: ((natToStr i).data ++ '-' ::
        (['l', '2'] ++ '-' :: ((natToStr j).data ++ '-' ::
          (['l', 's', 'i'] ++ '-' :: (natToStr k).data)))) := by
    simp [String.data_append]
  rw [splitDash, h, splitDashAux_append _ _ _ (by decide),
    splitDashAux_append _ _ _ (natToStr_no_dash i),
    splitDashAux_append _ _ _ (by decide),
    splitDashAux_append _ _ _ (natToStr_no_dash j),
    splitDashAux_append _ _ _ (by decide),
    splitDashAux_no_dash _ _ (natToStr_no_dash k)]
  rfl

theorem getParentId_l1_id (i : Nat) : getParentId ("l1-" ++ natToStr i) = none := by
  rw [getParentId, splitDash_l1_id]
  rfl

theorem getParentId_l2_id (i j : Nat) :
    getParentId ("l1-" ++ natToStr i ++ "-l2-" ++ natToStr j) =
      some ("l1-" ++ natToStr i) := by
  rw [getParentId, splitDash_l2_id]
  simp only [List.length_cons, List.length_nil]
  norm_num
  apply String.ext
  simp [joinDash, String.data_append, List.take]

theorem getParentId_lsi_id (i j k : Nat) :
    getParentId ("l1-" ++ natToStr i ++ "-l2-" ++ natToStr j ++ "-lsi-" ++
        natToStr k) =
      some ("l1-" ++ natToStr i ++ "-l2-" ++ natToStr j) := by
  rw [getParentId, splitDash_lsi_id]
  simp only [List.length_cons, List.length_nil]
  norm_num
  apply String.ext
  simp [joinDash, String.data_append, List.take]

/-- Claim C8: for every tree produced by the Tree Builder, identifiers
encode the exact tree path (`l1-{i}`, `{parentId}-l2-{j}`,
`{parentId}-lsi-{k}` with indices taken from position within the
parent), and `getParentId` (dropping the last two dash-separated
segments) recovers exactly the parent's identifier of any Level2 or
LsiTerm identifier, while a Level1 identifier has no parent. -/
theorem transformToRenderableMap_path_ids (m : KeywordMap)
    (i : Nat) (hi : i < (transformToRenderableMap m).length) :
    ((transformToRenderableMap m)[i].id = "l1-" ++ natToStr i ∧
      getParentId (transformToRenderableMap m)[i].id = none) ∧
    ∀ j, (hj : j < (transformToRenderableMap m)[i].children.length) →
      ((transformToRenderableMap m)[i].children[j].id =
          (transformToRenderableMap m)[i].id ++ "-l2-" ++ natToStr j ∧
        getParentId (transformToRenderableMap m)[i].children[j].id =
          some (transformToRenderableMap m)[i].id) ∧
      ∀ k, (hk : k < (transformToRenderableMap m)[i].children[j].lsi.length) →
        (transformToRenderableMap m)[i].children[j].lsi[k].id =
            (transformToRenderableMap m)[i].children[j].id ++ "-lsi-" ++
              natToStr k ∧
          getParentId (transformToRenderableMap m)[i].children[j].lsi[k].id =
            some (transformToRenderableMap m)[i].children[j].id := by
  refine ⟨⟨?_, ?_⟩, ?_⟩
  · simp [transformToRenderableMap, List.getElem_map, List.getElem_enum]
  · simp [transformToRenderableMap, List.getElem_map, List.getElem_enum,
      getParentId_l1_id]
  · intro j hj
    refine ⟨⟨?_, ?_⟩, ?_⟩
    · simp [transformToRenderableMap, List.getElem_map, List.getElem_enum]
    · simp [transformToRenderableMap, List.getElem_map, List.getElem_enum,
        getParentId_l2_id]
    · intro k hk
      refine ⟨?_, ?_⟩
      · simp [transformToRenderableMap, List.getElem_map, List.getElem_enum]
      · simp [transformToRenderableMap, List.getElem_map, List.getElem_enum,
          getParentId_lsi_id]

/-! ### Membership characterization of the selection cascade -/

theorem mem_setSel (x : String) (sel : Finset String) (id : String) (b : Bool) :
    x ∈ setSel sel id b ↔ if x = id then b = true else x ∈ sel := by
  cases b <;> by_cases hx : x = id <;>
    simp [setSel, hx, Finset.mem_insert, Finset.mem_erase]

/-- Identifiers written by the downward cascade started at a Level1
node: each Level2 child and each of its LSI terms. -/
def descIds (n : RenderLevel1Node) : List String :=
  n.children.flatMap fun c => c.id :: c.lsi.map fun t => t.id

theorem mem_lsiFold (ts : List RenderLsiNode) (v : Bool) (s : Finset String)
    (x : String) :
    x ∈ ts.foldl (fun s t => setSel s t.id v) s ↔
      if x ∈ ts.map (fun t => t.id) then v = true else x ∈ s := by
  induction ts generalizing s with
  | nil => simp
  | cons t rest ih =>
    rw [List.foldl_cons, ih]
    by_cases hr : x ∈ rest.map (fun t => t.id)
    · simp [hr]
    · by_cases hxt : x = t.id <;> simp [hr, hxt, mem_setSel]

theorem cascadeDown_of_lsi (tree : List RenderLevel1Node) (fuel : Nat)
    (sel : Finset String) (id : String) (v : Bool) (t : RenderLsiNode)
    (hf : findNodeById tree id = some (.lsi t)) :
    cascadeDown tree fuel sel id v = sel := by
  cases fuel <;> simp [cascadeDown, hf]

theorem mem_cascadeDown_l2 (tree : List RenderLevel1Node) (fuel : Nat)
    (sel : Finset String) (id : String) (v : Bool) (c : RenderLevel2Node)
    (hf : findNodeById tree id = some (.l2 c)) (x : String) :
    x ∈ cascadeDown tree (fuel + 1) sel id v ↔
      if x ∈ c.lsi.map (fun t => t.id) then v = true else x ∈ sel := by
  simp only [cascadeDown, hf]
  exact mem_lsiFold c.lsi v sel x

theorem mem_cascadeDown_children (tree : List RenderLevel1Node) (fuel : Nat)
    (v : Bool) (cs : List RenderLevel2Node)
    (hcs : ∀ c ∈ cs, findNodeById tree c.id = some (.l2 c))
    (s : Finset String) (x : String) :
    x ∈ cs.foldl
        (fun s c => cascadeDown tree (fuel + 1) (setSel s c.id v) c.id v) s ↔
      if x ∈ cs.flatMap (fun c => c.id :: c.lsi.map fun t => t.id) then v = true
      else x ∈ s := by
  induction cs generalizing s with
  | nil => simp
  | cons c rest ih =>
    rw [List.foldl_cons, ih (fun k hk => hcs k (List.mem_cons_of_mem _ hk))]
    have h1 := fun y s0 =>
      mem_cascadeDown_l2 tree fuel s0 c.id v c (hcs c (by simp)) y
    by_cases hr : x ∈ rest.flatMap (fun c => c.id :: c.lsi.map fun t => t.id)
    · simp [hr]
    · rw [if_neg hr, h1 x, mem_setSel]
      by_cases h2 : x ∈ c.lsi.map (fun t => t.id) <;>
        by_cases h3 : x = c.id <;> simp [hr, h2, h3]

theorem mem_cascadeDown_l1 (tree : List RenderLevel1Node) (sel : Finset String)
    (v : Bool) (n : RenderLevel1Node)
    (hf : findNodeById tree n.id = some (.l1 n))
    (hcs : ∀ c ∈ n.children, findNodeById tree c.id = some (.l2 c))
    (x : String) :
    x ∈ cascadeDown tree 3 sel n.id v ↔
      if x ∈ descIds n then v = true else x ∈ sel := by
  show x ∈ cascadeDown tree (2 + 1) sel n.id v ↔ _
  simp only [cascadeDown, hf]
  exact mem_cascadeDown_children tree 1 v n.children hcs sel x

theorem cascadeUp_of_none (tree : List RenderLevel1Node) (fuel : Nat)
    (sel : Finset String) (id : String) (h : getParentId id = none) :
    cascadeUp tree fuel sel id = sel := by
  cases fuel <;> simp [cascadeUp, h]

theorem cascadeUp_step (tree : List RenderLevel1Node) (fuel : Nat)
    (sel : Finset String) (id pid : String) (nd : FoundNode)
    (kids : List String) (hp : getParentId id = some pid)
    (hf : findNodeById tree pid = some nd) (hk : getChildIds nd = some kids) :
    cascadeUp tree (fuel + 1) sel id =
      cascadeUp tree fuel (setSel sel pid (kids.all fun k => decide (k ∈ sel)))
        pid := by
  simp only [cascadeUp, hp, hf, Option.some_bind, hk, setSel]

theorem getParentId_some_segments {id pid : String}
    (h : getParentId id = some pid) : 2 < (splitDash id).length := by
  by_contra h2
  rw [getParentId, if_pos (Nat.le_of_not_lt h2)] at h
  exact Option.noConfusion h

/-! ### Consequences of well-formedness -/

theorem WF.ne_l1_l2 {tree : List RenderLevel1Node} (h : WF tree)
    {n p : RenderLevel1Node} {c : RenderLevel2Node} (hn : n ∈ tree)
    (hp : p ∈ tree) (hc : c ∈ p.children) : n.id ≠ c.id := by
  intro he
  have h1 := h.findL1 n hn
  have h2 := h.findL2 p hp c hc
  rw [he, h2] at h1
  simp at h1

theorem WF.ne_l1_lsi {tree : List RenderLevel1Node} (h : WF tree)
    {n p : RenderLevel1Node} {c : RenderLevel2Node} {t : RenderLsiNode}
    (hn : n ∈ tree) (hp : p ∈ tree) (hc : c ∈ p.children) (ht : t ∈ c.lsi) :
    n.id ≠ t.id := by
  intro he
  have h1 := h.findL1 n hn
  have h2 := h.findLsi p hp c hc t ht
  rw [he, h2] at h1
  simp at h1

theorem WF.ne_l2_lsi {tree : List RenderLevel1Node} (h : WF tree)
    {n p : RenderLevel1Node} {c d : RenderLevel2Node} {t : RenderLsiNode}
    (hn : n ∈ tree) (hc : c ∈ n.children) (hp : p ∈ tree) (hd : d ∈ p.children)
    (ht : t ∈ d.lsi) : c.id ≠ t.id := by
  intro he
  have h1 := h.findL2 n hn c hc
  have h2 := h.findLsi p hp d hd t ht
  rw [he, h2] at h1
  simp at h1

theorem listAllCongr {α : Type} {xs : List α} {p q : α → Bool}
    (h : ∀ b ∈ xs, p b = q b) : xs.all p = xs.all q := by
  induction xs with
  | nil => rfl
  | cons y ys ih =>
    simp only [List.all_cons, h y (by simp),
      ih fun b hb => h b (List.mem_cons_of_mem _ hb)]

theorem listAllMap {α β : Type} (l : List α) (f : α → β) (p : β → Bool) :
    (l.map f).all p = l.all fun a => p (f a) := by
  induction l with
  | nil => rfl
  | cons a rest ih => simp only [List.map_cons, List.all_cons, ih]

theorem decideEqBool {p : Prop} [Decidable p] {b : Bool} (h : p ↔ b = true) :
    decide p = b := by
  cases b
  · exact decide_eq_false (by simpa using h)
  · exact decide_eq_true (by simpa using h)

/-! ### Membership after a toggle, by the kind of the toggled node -/

theorem mem_toggle_l1 {tree : List RenderLevel1Node} (h : WF tree)
    {n : RenderLevel1Node} (hn : n ∈ tree) (sel : Finset String) (v : Bool)
    (x : String) :
    x ∈ handleSelectionChange tree sel n.id v ↔
      if x = n.id ∨ x ∈ descIds n then v = true else x ∈ sel := by
  rw [handleSelectionChange,
    cascadeUp_of_none tree _ _ _ (h.parentL1 n hn),
    mem_cascadeDown_l1 tree _ v n (h.findL1 n hn)
      (fun c hc => h.findL2 n hn c hc), mem_setSel]
  by_cases h1 : x ∈ descIds n <;> by_cases h2 : x = n.id <;> simp [h1, h2]

theorem mem_toggle_l2 {tree : List RenderLevel1Node} (h : WF tree)
    {n : RenderLevel1Node} {c : RenderLevel2Node} (hn : n ∈ tree)
    (hc : c ∈ n.children) (sel : Finset String) (v : Bool) (x : String) :
    x ∈ handleSelectionChange tree sel c.id v ↔
      if x = n.id then
        (n.children.all fun k =>
          if k.id = c.id then v else decide (k.id ∈ sel)) = true
      else if x = c.id ∨ x ∈ c.lsi.map (fun t => t.id) then v = true
      else x ∈ sel := by
  have hp := h.parentL2 n hn c hc
  obtain ⟨f, hfe⟩ : ∃ f, (splitDash c.id).length = f + 1 :=
    ⟨(splitDash c.id).length - 1, by
      have := getParentId_some_segments hp
      omega⟩
  have hdown : ∀ y, y ∈ cascadeDown tree 3 (setSel sel c.id v) c.id v ↔
      if y ∈ c.lsi.map (fun t => t.id) then v = true
      else y ∈ setSel sel c.id v :=
    fun y => mem_cascadeDown_l2 tree 2 _ c.id v c (h.findL2 n hn c hc) y
  have hgc : getChildIds (.l1 n) = some (n.children.map fun k => k.id) := rfl
  rw [handleSelectionChange, hfe,
    cascadeUp_step tree f _ c.id n.id (.l1 n) (n.children.map fun k => k.id)
      hp (h.findL1 n hn) hgc,
    cascadeUp_of_none tree _ _ _ (h.parentL1 n hn), mem_setSel]
  have hb : ((n.children.map fun k => k.id).all fun k =>
        decide (k ∈ cascadeDown tree 3 (setSel sel c.id v) c.id v)) =
      (n.children.all fun k => if k.id = c.id then v else decide (k.id ∈ sel)) := by
    rw [listAllMap]
    apply listAllCongr
    intro k hk
    have hkt : k.id ∉ c.lsi.map (fun t => t.id) := by
      intro hmem
      rcases List.mem_map.mp hmem with ⟨t, ht, hte⟩
      exact (h.ne_l2_lsi hn hk hn hc ht) hte.symm
    have hmem : k.id ∈ cascadeDown tree 3 (setSel sel c.id v) c.id v ↔
        if k.id = c.id then v = true else k.id ∈ sel := by
      rw [hdown k.id, if_neg hkt, mem_setSel]
    show decide (k.id ∈ cascadeDown tree 3 (setSel sel c.id v) c.id v) =
      if k.id = c.id then v else decide (k.id ∈ sel)
    by_cases hkc : k.id = c.id
    · rw [if_pos hkc] at hmem ⊢
      cases v <;> simp [hmem]
    · rw [if_neg hkc] at hmem ⊢
      exact decide_eq_decide.mpr hmem
  rw [hb]
  by_cases h2 : x = n.id
  · rw [if_pos h2, if_pos h2]
  · rw [if_neg h2, if_neg h2, hdown x, mem_setSel]
    by_cases h3 : x ∈ c.lsi.map (fun t => t.id) <;>
      by_cases h4 : x = c.id <;> simp [h3, h4]

theorem mem_toggle_lsi {tree : List RenderLevel1Node} (h : WF tree)
    {n : RenderLevel1Node} {c : RenderLevel2Node} {t : RenderLsiNode}
    (hn : n ∈ tree) (hc : c ∈ n.children) (ht : t ∈ c.lsi)
    (sel : Finset String) (v : Bool) (x : String) :
    x ∈ handleSelectionChange tree sel t.id v ↔
      if x = n.id then
        (n.children.all fun k =>
          if k.id = c.id then
            c.lsi.all fun u => if u.id = t.id then v else decide (u.id ∈ sel)
          else decide (k.id ∈ sel)) = true
      else if x = c.id then
        (c.lsi.all fun u =>
          if u.id = t.id then v else decide (u.id ∈ sel)) = true
      else if x = t.id then v = true
      else x ∈ sel := by
  have hpt := h.parentLsi n hn c hc t ht
  have hpc := h.parentL2 n hn c hc
  have hfc := h.findL2 n hn c hc
  have hfn := h.findL1 n hn
  have hpn := h.parentL1 n hn
  have hdown : cascadeDown tree 3 (setSel sel t.id v) t.id v = setSel sel t.id v :=
    cascadeDown_of_lsi tree 3 _ t.id v t (h.findLsi n hn c hc t ht)
  obtain ⟨f, hfe⟩ : ∃ f, (splitDash t.id).length = f + 1 + 1 :=
    ⟨(splitDash t.id).length - 2, by
      have := getParentId_some_segments hpt
      omega⟩
  have hgc2 : getChildIds (.l2 c) = some (c.lsi.map fun u => u.id) := rfl
  have hgc1 : getChildIds (.l1 n) = some (n.children.map fun k => k.id) := rfl
  rw [handleSelectionChange, hdown, hfe,
    cascadeUp_step tree (f + 1) _ t.id c.id (.l2 c) (c.lsi.map fun u => u.id)
      hpt hfc hgc2,
    cascadeUp_step tree f _ c.id n.id (.l1 n) (n.children.map fun k => k.id)
      hpc hfn hgc1,
    cascadeUp_of_none tree f _ _ hpn]
  have hbc : ((c.lsi.map fun u => u.id).all fun k =>
        decide (k ∈ setSel sel t.id v)) =
      (c.lsi.all fun u => if u.id = t.id then v else decide (u.id ∈ sel)) := by
    rw [listAllMap]
    apply listAllCongr
    intro u hu
    show decide (u.id ∈ setSel sel t.id v) =
      if u.id = t.id then v else decide (u.id ∈ sel)
    have hm := mem_setSel u.id sel t.id v
    by_cases hut : u.id = t.id
    · rw [if_pos hut] at hm ⊢
      exact decideEqBool hm
    · rw [if_neg hut] at hm ⊢
      exact decide_eq_decide.mpr hm
  rw [hbc]
  have hbn : ((n.children.map fun k => k.id).all fun k =>
        decide (k ∈ setSel (setSel sel t.id v) c.id
          (c.lsi.all fun u => if u.id = t.id then v else decide (u.id ∈ sel)))) =
      (n.children.all fun k =>
        if k.id = c.id then
          c.lsi.all fun u => if u.id = t.id then v else decide (u.id ∈ sel)
        else decide (k.id ∈ sel)) := by
    rw [listAllMap]
    apply listAllCongr
    intro k hk
    show decide (k.id ∈ setSel (setSel sel t.id v) c.id
        (c.lsi.all fun u => if u.id = t.id then v else decide (u.id ∈ sel))) =
      if k.id = c.id then
        c.lsi.all fun u => if u.id = t.id then v else decide (u.id ∈ sel)
      else decide (k.id ∈ sel)
    have hkt : k.id ≠ t.id := h.ne_l2_lsi hn hk hn hc ht
    have hm : k.id ∈ setSel (setSel sel t.id v) c.id
        (c.lsi.all fun u => if u.id = t.id then v else decide (u.id ∈ sel)) ↔
        if k.id = c.id then
          (c.lsi.all fun u => if u.id = t.id then v else decide (u.id ∈ sel)) =
            true
        else k.id ∈ sel := by
      rw [mem_setSel]
      by_cases hkc : k.id = c.id
      · rw [if_pos hkc, if_pos hkc]
      · rw [if_neg hkc, if_neg hkc, mem_setSel, if_neg hkt]
    by_cases hkc : k.id = c.id
    · rw [if_pos hkc] at hm ⊢
      exact decideEqBool hm
    · rw [if_neg hkc] at hm ⊢
      exact decide_eq_decide.mpr hm
  rw [hbn, mem_setSel]
  by_cases h1 : x = n.id
  · rw [if_pos h1, if_pos h1]
  · rw [if_neg h1, if_neg h1, mem_setSel, mem_setSel]

theorem mem_descIds {n : RenderLevel1Node} {x : String} :
    x ∈ descIds n ↔
      ∃ c ∈ n.children, x = c.id ∨ x ∈ c.lsi.map fun t => t.id := by
  simp only [descIds, List.mem_flatMap, List.mem_cons]

theorem descIds_of_l2 {n : RenderLevel1Node} {c : RenderLevel2Node}
    (hc : c ∈ n.children) : c.id ∈ descIds n :=
  mem_descIds.mpr ⟨c, hc, Or.inl rfl⟩

theorem descIds_of_lsi {n : RenderLevel1Node} {c : RenderLevel2Node}
    {t : RenderLsiNode} (hc : c ∈ n.children) (ht : t ∈ c.lsi) :
    t.id ∈ descIds n :=
  mem_descIds.mpr ⟨c, hc, Or.inr (List.mem_map.mpr ⟨t, ht, rfl⟩)⟩

/-- Claim C4: toggling a Level1 node to `true` makes its identifier and
every descendant identifier (each Level2 child and each LSI term below
it) present in the SelectionSet; toggling it to `false` removes all of
them. -/
theorem toggle_l1_cascade {tree : List RenderLevel1Node} (h : WF tree)
    {n : RenderLevel1Node} (hn : n ∈ tree) (sel : Finset String) :
    (n.id ∈ handleSelectionChange tree sel n.id true ∧
      ∀ c ∈ n.children, c.id ∈ handleSelectionChange tree sel n.id true ∧
        ∀ t ∈ c.lsi, t.id ∈ handleSelectionChange tree sel n.id true) ∧
    (n.id ∉ handleSelectionChange tree sel n.id false ∧
      ∀ c ∈ n.children, c.id ∉ handleSelectionChange tree sel n.id false ∧
        ∀ t ∈ c.lsi, t.id ∉ handleSelectionChange tree sel n.id false) := by
  constructor
  · refine ⟨?_, fun c hc => ⟨?_, fun t ht => ?_⟩⟩
    · rw [mem_toggle_l1 h hn sel true n.id, if_pos (Or.inl rfl)]
    · rw [mem_toggle_l1 h hn sel true c.id,
        if_pos (Or.inr (descIds_of_l2 hc))]
    · rw [mem_toggle_l1 h hn sel true t.id,
        if_pos (Or.inr (descIds_of_lsi hc ht))]
  · refine ⟨?_, fun c hc => ⟨?_, fun t ht => ?_⟩⟩
    · rw [mem_toggle_l1 h hn sel false n.id, if_pos (Or.inl rfl)]
      simp
    · rw [mem_toggle_l1 h hn sel false c.id,
        if_pos (Or.inr (descIds_of_l2 hc))]
      simp
    · rw [mem_toggle_l1 h hn sel false t.id,
        if_pos (Or.inr (descIds_of_lsi hc ht))]
      simp

/-! ### The cascade-consistency invariant (claim C3) -/

/-- Cascade consistency as the updater maintains it: a Level2 entry with
at least one LSI term is present iff all of its terms are present, and a
Level1 entry with at least one Level2 child is present iff all of its
children are present. -/
def Consistent (tree : List RenderLevel1Node) (sel : Finset String) : Prop :=
  (∀ n ∈ tree, ∀ c ∈ n.children, c.lsi ≠ [] →
    (c.id ∈ sel ↔ ∀ t ∈ c.lsi, t.id ∈ sel)) ∧
  (∀ n ∈ tree, n.children ≠ [] →
    (n.id ∈ sel ↔ ∀ c ∈ n.children, c.id ∈ sel))

/-- Upward consistency exactly as claim C3 words it, with no proviso for
nodes without children. -/
def ConsistentClaim (tree : List RenderLevel1Node) (sel : Finset String) : Prop :=
  (∀ n ∈ tree, ∀ c ∈ n.children, (c.id ∈ sel ↔ ∀ t ∈ c.lsi, t.id ∈ sel)) ∧
  (∀ n ∈ tree, (n.id ∈ sel ↔ ∀ c ∈ n.children, c.id ∈ sel))

theorem consistent_toggle_l1 {tree : List RenderLevel1Node} (h : WF tree)
    {sel : Finset String} (hcons : Consistent tree sel)
    {n0 : RenderLevel1Node} (hn0 : n0 ∈ tree) (v : Bool) :
    Consistent tree (handleSelectionChange tree sel n0.id v) := by
  have hmem := fun x => mem_toggle_l1 h hn0 sel v x
  constructor
  · intro n hn c hc hne
    by_cases hcd : c.id ∈ descIds n0
    · have hc0 : ∃ c' ∈ n0.children, c.id = c'.id := by
        rcases mem_descIds.mp hcd with ⟨c', hc', hor⟩
        rcases hor with he | hmap
        · exact ⟨c', hc', he⟩
        · rcases List.mem_map.mp hmap with ⟨t, ht, hte⟩
          exact absurd hte.symm (h.ne_l2_lsi hn hc hn0 hc' ht)
      rcases hc0 with ⟨c', hc', hce⟩
      rcases h.uniqL2 n hn c hc n0 hn0 c' hc' hce with ⟨rfl, rfl⟩
      have hcv : c.id ∈ handleSelectionChange tree sel n.id v ↔ v = true := by
        rw [hmem c.id, if_pos (Or.inr hcd)]
      have htv : ∀ t ∈ c.lsi,
          (t.id ∈ handleSelectionChange tree sel n.id v ↔ v = true) := by
        intro t ht
        rw [hmem t.id, if_pos (Or.inr (descIds_of_lsi hc ht))]
      rw [hcv]
      constructor
      · intro hv t ht
        exact (htv t ht).mpr hv
      · intro hall
        rcases List.exists_mem_of_ne_nil c.lsi hne with ⟨t, ht⟩
        exact (htv t ht).mp (hall t ht)
    · have hcu : c.id ∈ handleSelectionChange tree sel n0.id v ↔ c.id ∈ sel := by
        rw [hmem c.id, if_neg]
        rintro (he | hd)
        · exact (h.ne_l1_l2 hn0 hn hc) he.symm
        · exact hcd hd
      have htu : ∀ t ∈ c.lsi,
          (t.id ∈ handleSelectionChange tree sel n0.id v ↔ t.id ∈ sel) := by
        intro t ht
        rw [hmem t.id, if_neg]
        rintro (he | hd)
        · exact (h.ne_l1_lsi hn0 hn hc ht) he.symm
        · rcases mem_descIds.mp hd with ⟨c', hc', hor⟩
          rcases hor with he | hmap
          · exact (h.ne_l2_lsi hn0 hc' hn hc ht) he.symm
          · rcases List.mem_map.mp hmap with ⟨t', ht', hte⟩
            rcases h.uniqLsi n hn c hc t ht n0 hn0 c' hc' t' ht' hte.symm
              with ⟨_, hce, _⟩
            exact hcd (hce ▸ descIds_of_l2 hc')
      rw [hcu, hcons.1 n hn c hc hne]
      exact ⟨fun ha t ht => (htu t ht).mpr (ha t ht),
        fun ha t ht => (htu t ht).mp (ha t ht)⟩
  · intro n hn hne
    by_cases hni : n.id = n0.id
    · obtain rfl : n = n0 := h.uniqL1 n hn n0 hn0 hni
      have hnv : n.id ∈ handleSelectionChange tree sel n.id v ↔ v = true := by
        rw [hmem n.id, if_pos (Or.inl rfl)]
      have hcv : ∀ c ∈ n.children,
          (c.id ∈ handleSelectionChange tree sel n.id v ↔ v = true) := by
        intro c hc
        rw [hmem c.id, if_pos (Or.inr (descIds_of_l2 hc))]
      rw [hnv]
      constructor
      · intro hv c hc
        exact (hcv c hc).mpr hv
      · intro hall
        rcases List.exists_mem_of_ne_nil n.children hne with ⟨c, hc⟩
        exact (hcv c hc).mp (hall c hc)
    · have hnu : n.id ∈ handleSelectionChange tree sel n0.id v ↔ n.id ∈ sel := by
        rw [hmem n.id, if_neg]
        rintro (he | hd)
        · exact hni he
        · rcases mem_descIds.mp hd with ⟨c', hc', hor⟩
          rcases hor with he | hmap
          · exact (h.ne_l1_l2 hn hn0 hc') he
          · rcases List.mem_map.mp hmap with ⟨t, ht, hte⟩
            exact (h.ne_l1_lsi hn hn0 hc' ht) hte.symm
      have hcu : ∀ c ∈ n.children,
          (c.id ∈ handleSelectionChange tree sel n0.id v ↔ c.id ∈ sel) := by
        intro c hc
        rw [hmem c.id, if_neg]
        rintro (he | hd)
        · exact (h.ne_l1_l2 hn0 hn hc) he.symm
        · rcases mem_descIds.mp hd with ⟨c', hc', hor⟩
          rcases hor with he | hmap
          · rcases h.uniqL2 n hn c hc n0 hn0 c' hc' he with ⟨hnn, _⟩
            exact hni (by rw [hnn])
          · rcases List.mem_map.mp hmap with ⟨t, ht, hte⟩
            exact (h.ne_l2_lsi hn hc hn0 hc' ht) hte.symm
      rw [hnu, hcons.2 n hn hne]
      exact ⟨fun ha c hc => (hcu c hc).mpr (ha c hc),
        fun ha c hc => (hcu c hc).mp (ha c hc)⟩

theorem consistent_toggle_l2 {tree : List RenderLevel1Node} (h : WF tree)
    {sel : Finset String} (hcons : Consistent tree sel)
    {n0 : RenderLevel1Node} {c0 : RenderLevel2Node} (hn0 : n0 ∈ tree)
    (hc0 : c0 ∈ n0.children) (v : Bool) :
    Consistent tree (handleSelectionChange tree sel c0.id v) := by
  have hmem := fun x => mem_toggle_l2 h hn0 hc0 sel v x
  constructor
  · intro n hn c hc hne
    by_cases hcc : c.id = c0.id
    · rcases h.uniqL2 n hn c hc n0 hn0 c0 hc0 hcc with ⟨rfl, rfl⟩
      have hcv : c.id ∈ handleSelectionChange tree sel c.id v ↔ v = true := by
        rw [hmem c.id, if_neg (Ne.symm (h.ne_l1_l2 hn hn hc)),
          if_pos (Or.inl rfl)]
      have htv : ∀ t ∈ c.lsi,
          (t.id ∈ handleSelectionChange tree sel c.id v ↔ v = true) := by
        intro t ht
        rw [hmem t.id, if_neg (Ne.symm (h.ne_l1_lsi hn hn hc ht)),
          if_pos (Or.inr (List.mem_map.mpr ⟨t, ht, rfl⟩))]
      rw [hcv]
      constructor
      · intro hv t ht
        exact (htv t ht).mpr hv
      · intro hall
        rcases List.exists_mem_of_ne_nil c.lsi hne with ⟨t, ht⟩
        exact (htv t ht).mp (hall t ht)
    · have hcu : c.id ∈ handleSelectionChange tree sel c0.id v ↔ c.id ∈ sel := by
        rw [hmem c.id, if_neg (Ne.symm (h.ne_l1_l2 hn0 hn hc)), if_neg]
        rintro (he | hmap)
        · exact hcc he
        · rcases List.mem_map.mp hmap with ⟨t, ht, hte⟩
          exact (h.ne_l2_lsi hn hc hn0 hc0 ht) hte.symm
      have htu : ∀ t ∈ c.lsi,
          (t.id ∈ handleSelectionChange tree sel c0.id v ↔ t.id ∈ sel) := by
        intro t ht
        rw [hmem t.id, if_neg (Ne.symm (h.ne_l1_lsi hn0 hn hc ht)), if_neg]
        rintro (he | hmap)
        · exact (h.ne_l2_lsi hn0 hc0 hn hc ht) he.symm
        · rcases List.mem_map.mp hmap with ⟨t', ht', hte⟩
          rcases h.uniqLsi n hn c hc t ht n0 hn0 c0 hc0 t' ht' hte.symm
            with ⟨_, hce, _⟩
          exact hcc (by rw [hce])
      rw [hcu, hcons.1 n hn c hc hne]
      exact ⟨fun ha t ht => (htu t ht).mpr (ha t ht),
        fun ha t ht => (htu t ht).mp (ha t ht)⟩
  · intro n hn hne
    by_cases hni : n.id = n0.id
    · obtain rfl : n = n0 := h.uniqL1 n hn n0 hn0 hni
      have hnv : n.id ∈ handleSelectionChange tree sel c0.id v ↔
          (n.children.all fun k =>
            if k.id = c0.id then v else decide (k.id ∈ sel)) = true := by
        rw [hmem n.id, if_pos rfl]
      have hcS : ∀ c ∈ n.children,
          (c.id ∈ handleSelectionChange tree sel c0.id v ↔
            if c.id = c0.id then v = true else c.id ∈ sel) := by
        intro c hc
        rw [hmem c.id, if_neg (Ne.symm (h.ne_l1_l2 hn hn hc))]
        by_cases hcc : c.id = c0.id
        · rw [if_pos (Or.inl hcc), if_pos hcc]
        · rw [if_neg, if_neg hcc]
          rintro (he | hmap)
          · exact hcc he
          · rcases List.mem_map.mp hmap with ⟨t, ht, hte⟩
            exact (h.ne_l2_lsi hn hc hn0 hc0 ht) hte.symm
      rw [hnv, List.all_eq_true]
      constructor
      · intro hall c hc
        rw [hcS c hc]
        have hx := hall c hc
        by_cases hcc : c.id = c0.id
        · rw [if_pos hcc] at hx ⊢
          exact hx
        · rw [if_neg hcc] at hx ⊢
          exact of_decide_eq_true hx
      · intro hall k hk
        have hx := (hcS k hk).mp (hall k hk)
        by_cases hcc : k.id = c0.id
        · rw [if_pos hcc] at hx ⊢
          exact hx
        · rw [if_neg hcc] at hx ⊢
          exact decide_eq_true hx
    · have hnu : n.id ∈ handleSelectionChange tree sel c0.id v ↔ n.id ∈ sel := by
        rw [hmem n.id, if_neg hni, if_neg]
        rintro (he | hmap)
        · exact (h.ne_l1_l2 hn hn0 hc0) he
        · rcases List.mem_map.mp hmap with ⟨t, ht, hte⟩
          exact (h.ne_l1_lsi hn hn0 hc0 ht) hte.symm
      have hcu : ∀ c ∈ n.children,
          (c.id ∈ handleSelectionChange tree sel c0.id v ↔ c.id ∈ sel) := by
        intro c hc
        rw [hmem c.id, if_neg (Ne.symm (h.ne_l1_l2 hn0 hn hc)), if_neg]
        rintro (he | hmap)
        · rcases h.uniqL2 n hn c hc n0 hn0 c0 hc0 he with ⟨hnn, _⟩
          exact hni (by rw [hnn])
        · rcases List.mem_map.mp hmap with ⟨t, ht, hte⟩
          exact (h.ne_l2_lsi hn hc hn0 hc0 ht) hte.symm
      rw [hnu, hcons.2 n hn hne]
      exact ⟨fun ha c hc => (hcu c hc).mpr (ha c hc),
        fun ha c hc => (hcu c hc).mp (ha c hc)⟩

theorem consistent_toggle_lsi {tree : List RenderLevel1Node} (h : WF tree)
    {sel : Finset String} (hcons : Consistent tree sel)
    {n0 : RenderLevel1Node} {c0 : RenderLevel2Node} {t0 : RenderLsiNode}
    (hn0 : n0 ∈ tree) (hc0 : c0 ∈ n0.children) (ht0 : t0 ∈ c0.lsi) (v : Bool) :
    Consistent tree (handleSelectionChange tree sel t0.id v) := by
  have hmem := fun x => mem_toggle_lsi h hn0 hc0 ht0 sel v x
  constructor
  · intro n hn c hc hne
    by_cases hcc : c.id = c0.id
    · rcases h.uniqL2 n hn c hc n0 hn0 c0 hc0 hcc with ⟨rfl, rfl⟩
      have hcv : c.id ∈ handleSelectionChange tree sel t0.id v ↔
          (c.lsi.all fun u =>
            if u.id = t0.id then v else decide (u.id ∈ sel)) = true := by
        rw [hmem c.id, if_neg (Ne.symm (h.ne_l1_l2 hn hn hc)), if_pos rfl]
      have htS : ∀ u ∈ c.lsi,
          (u.id ∈ handleSelectionChange tree sel t0.id v ↔
            if u.id = t0.id then v = true else u.id ∈ sel) := by
        intro u hu
        rw [hmem u.id, if_neg (Ne.symm (h.ne_l1_lsi hn hn hc hu)),
          if_neg (Ne.symm (h.ne_l2_lsi hn hc hn hc hu))]
      rw [hcv, List.all_eq_true]
      constructor
      · intro hall u hu
        rw [htS u hu]
        have hx := hall u hu
        by_cases hut : u.id = t0.id
        · rw [if_pos hut] at hx ⊢
          exact hx
        · rw [if_neg hut] at hx ⊢
          exact of_decide_eq_true hx
      · intro hall u hu
        have hx := (htS u hu).mp (hall u hu)
        by_cases hut : u.id = t0.id
        · rw [if_pos hut] at hx ⊢
          exact hx
        · rw [if_neg hut] at hx ⊢
          exact decide_eq_true hx
    · have hcu : c.id ∈ handleSelectionChange tree sel t0.id v ↔ c.id ∈ sel := by
        rw [hmem c.id, if_neg (Ne.symm (h.ne_l1_l2 hn0 hn hc)), if_neg hcc,
          if_neg (h.ne_l2_lsi hn hc hn0 hc0 ht0)]
      have htu : ∀ t ∈ c.lsi,
          (t.id ∈ handleSelectionChange tree sel t0.id v ↔ t.id ∈ sel) := by
        intro t ht
        have htt : t.id ≠ t0.id := by
          intro he
          rcases h.uniqLsi n hn c hc t ht n0 hn0 c0 hc0 t0 ht0 he
            with ⟨_, hce, _⟩
          exact hcc (by rw [hce])
        rw [hmem t.id, if_neg (Ne.symm (h.ne_l1_lsi hn0 hn hc ht)),
          if_neg (Ne.symm (h.ne_l2_lsi hn0 hc0 hn hc ht)), if_neg htt]
      rw [hcu, hcons.1 n hn c hc hne]
      exact ⟨fun ha t ht => (htu t ht).mpr (ha t ht),
        fun ha t ht => (htu t ht).mp (ha t ht)⟩
  · intro n hn hne
    by_cases hni : n.id = n0.id
    · obtain rfl : n = n0 := h.uniqL1 n hn n0 hn0 hni
      have hnv : n.id ∈ handleSelectionChange tree sel t0.id v ↔
          (n.children.all fun k =>
            if k.id = c0.id then
              c0.lsi.all fun u => if u.id = t0.id then v else decide (u.id ∈ sel)
            else decide (k.id ∈ sel)) = true := by
        rw [hmem n.id, if_pos rfl]
      have hcS : ∀ k ∈ n.children,
          (k.id ∈ handleSelectionChange tree sel t0.id v ↔
            if k.id = c0.id then
              (c0.lsi.all fun u =>
                if u.id = t0.id then v else decide (u.id ∈ sel)) = true
            else k.id ∈ sel) := by
        intro k hk
        rw [hmem k.id, if_neg (Ne.symm (h.ne_l1_l2 hn hn hk))]
        by_cases hkc : k.id = c0.id
        · rw [if_pos hkc, if_pos hkc]
        · rw [if_neg hkc, if_neg hkc,
            if_neg (h.ne_l2_lsi hn hk hn hc0 ht0)]
      rw [hnv, List.all_eq_true]
      constructor
      · intro hall k hk
        rw [hcS k hk]
        have hx := hall k hk
        by_cases hkc : k.id = c0.id
        · rw [if_pos hkc] at hx ⊢
          exact hx
        · rw [if_neg hkc] at hx ⊢
          exact of_decide_eq_true hx
      · intro hall k hk
        have hx := (hcS k hk).mp (hall k hk)
        by_cases hkc : k.id = c0.id
        · rw [if_pos hkc] at hx ⊢
          exact hx
        · rw [if_neg hkc] at hx ⊢
          exact decide_eq_true hx
    · have hnu : n.id ∈ handleSelectionChange tree sel t0.id v ↔ n.id ∈ sel := by
        rw [hmem n.id, if_neg hni, if_neg (h.ne_l1_l2 hn hn0 hc0),
          if_neg (h.ne_l1_lsi hn hn0 hc0 ht0)]
      have hcu : ∀ c ∈ n.children,
          (c.id ∈ handleSelectionChange tree sel t0.id v ↔ c.id ∈ sel) := by
        intro c hc
        have hcc : c.id ≠ c0.id := by
          intro he
          rcases h.uniqL2 n hn c hc n0 hn0 c0 hc0 he with ⟨hnn, _⟩
          exact hni (by rw [hnn])
        rw [hmem c.id, if_neg (Ne.symm (h.ne_l1_l2 hn0 hn hc)), if_neg hcc,
          if_neg (h.ne_l2_lsi hn hc hn0 hc0 ht0)]
      rw [hnu, hcons.2 n hn hne]
      exact ⟨fun ha c hc => (hcu c hc).mpr (ha c hc),
        fun ha c hc => (hcu c hc).mp (ha c hc)⟩

theorem mem_allNodeIds {tree : List RenderLevel1Node} {x : String} :
    x ∈ allNodeIds tree ↔
      (∃ n ∈ tree, x = n.id) ∨
      (∃ n ∈ tree, ∃ c ∈ n.children, x = c.id) ∨
      (∃ n ∈ tree, ∃ c ∈ n.children, ∃ t ∈ c.lsi, x = t.id) := by
  simp only [allNodeIds, List.mem_flatMap, List.mem_cons, List.mem_map]
  constructor
  · rintro ⟨n, hn, rfl | ⟨c, hc, rfl | ⟨t, ht, rfl⟩⟩⟩
    · exact Or.inl ⟨n, hn, rfl⟩
    · exact Or.inr (Or.inl ⟨n, hn, c, hc, rfl⟩)
    · exact Or.inr (Or.inr ⟨n, hn, c, hc, t, ht, rfl⟩)
  · rintro (⟨n, hn, rfl⟩ | ⟨n, hn, c, hc, rfl⟩ | ⟨n, hn, c, hc, t, ht, rfl⟩)
    · exact ⟨n, hn, Or.inl rfl⟩
    · exact ⟨n, hn, Or.inr ⟨c, hc, Or.inl rfl⟩⟩
    · exact ⟨n, hn, Or.inr ⟨c, hc, Or.inr ⟨t, ht, rfl⟩⟩⟩

theorem consistent_toggle {tree : List RenderLevel1Node} (h : WF tree)
    {sel : Finset String} (hcons : Consistent tree sel) {id : String}
    (hid : id ∈ allNodeIds tree) (v : Bool) :
    Consistent tree (handleSelectionChange tree sel id v) := by
  rcases mem_allNodeIds.mp hid with ⟨n, hn, rfl⟩ | ⟨n, hn, c, hc, rfl⟩ |
    ⟨n, hn, c, hc, t, ht, rfl⟩
  · exact consistent_toggle_l1 h hcons hn v
  · exact consistent_toggle_l2 h hcons hn hc v
  · exact consistent_toggle_lsi h hcons hn hc ht v

theorem consistent_empty (tree : List RenderLevel1Node) :
    Consistent tree (∅ : Finset String) := by
  constructor
  · intro n hn c hc hne
    refine iff_of_false (Finset.not_mem_empty _) ?_
    intro hall
    rcases List.exists_mem_of_ne_nil c.lsi hne with ⟨t, ht⟩
    exact Finset.not_mem_empty _ (hall t ht)
  · intro n hn hne
    refine iff_of_false (Finset.not_mem_empty _) ?_
    intro hall
    rcases List.exists_mem_of_ne_nil n.children hne with ⟨c, hc⟩
    exact Finset.not_mem_empty _ (hall c hc)

theorem consistent_reachable {tree : List RenderLevel1Node} (h : WF tree)
    {sel : Finset String} (hr : Reachable tree sel) : Consistent tree sel := by
  induction hr with
  | empty => exact consistent_empty tree
  | step id v hr hid ih => exact consistent_toggle h ih hid v

/-! ### Concrete trees used by witnesses and counterexamples -/

/-- A Level1 node in the shape the Tree Builder produces, with two
Level2 children holding three and one LSI terms. -/
def sampleL1 : RenderLevel1Node :=
  { id := "l1-0", keyword := "A", type := "引流型", pageType := "文章类",
    children :=
      [ { id := "l1-0-l2-0", keyword := "A1", type := "认知型 (Awareness)",
          lsi :=
            [ { id := "l1-0-l2-0-lsi-0", text := "a", isNew := none },
              { id := "l1-0-l2-0-lsi-1", text := "b", isNew := none },
              { id := "l1-0-l2-0-lsi-2", text := "c", isNew := none } ] },
        { id := "l1-0-l2-1", keyword := "A2", type := "决策型 (Decision)",
          lsi :=
            [ { id := "l1-0-l2-1-lsi-0", text := "d", isNew := none } ] } ] }

/-- A small well-formed tree holding `sampleL1` alone. -/
def sampleTree : List RenderLevel1Node := [sampleL1]

theorem sampleTree_wf : WF sampleTree := by
  refine ⟨?_, ?_, ?_, ?_, ?_, ?_, ?_, ?_, ?_, ?_, ?_⟩ <;> decide

/-- A well-formed tree containing a Level2 node with no LSI terms. -/
def emptyL2Tree : List RenderLevel1Node :=
  [ { id := "l1-0", keyword := "B", type := "对比型", pageType := "聚合类",
      children :=
        [ { id := "l1-0-l2-0", keyword := "B1", type := "行动型 (Action)",
            lsi := [] } ] } ]

theorem emptyL2Tree_wf : WF emptyL2Tree := by
  refine ⟨?_, ?_, ?_, ?_, ?_, ?_, ?_, ?_, ?_, ?_, ?_⟩ <;> decide

instance (tree : List RenderLevel1Node) (sel : Finset String) :
    Decidable (Consistent tree sel) := by
  unfold Consistent
  infer_instance

instance (tree : List RenderLevel1Node) (sel : Finset String) :
    Decidable (ConsistentClaim tree sel) := by
  unfold ConsistentClaim
  infer_instance

/-- Claim C3, amended: after any toggle of a node of a well-formed tree,
applied to any selection set reachable from the empty set by toggles,
every Level2 node **that has at least one LSI term** is present in the
SelectionSet iff all of its terms' identifiers are present, and every
Level1 node **that has at least one Level2 child** is present iff all of
its children's identifiers are present.  The proviso for childless nodes
is forced by the counterexample: a childless node can be absent while
"all of its children" holds vacuously. -/
theorem C3_upward_consistency (tree : List RenderLevel1Node) (h : WF tree)
    (sel : Finset String) (hr : Reachable tree sel) (id : String)
    (hid : id ∈ allNodeIds tree) (v : Bool) :
    Consistent tree (handleSelectionChange tree sel id v) :=
  consistent_toggle h (consistent_reachable h hr) hid v

/-- Claim C3 counterexample: on the tree whose only Level2 node
`l1-0-l2-0` has no LSI terms, toggling that node to `false` from the
empty (reachable) selection yields a set in which the node is absent
although "all of its LsiTerm children are present" holds vacuously, so
the unqualified biconditional of the claim fails. -/
theorem C3_upward_consistency_cex :
    Reachable emptyL2Tree ∅ ∧ "l1-0-l2-0" ∈ allNodeIds emptyL2Tree ∧
      ¬ ConsistentClaim emptyL2Tree
          (handleSelectionChange emptyL2Tree ∅ "l1-0-l2-0" false) :=
  ⟨Reachable.empty, by decide, by decide⟩

/-- Witness for C3 at a concrete input: the sample tree is well formed,
the empty selection is reachable, `l1-0-l2-0-lsi-0` is a node of the
tree, and the amended consistency holds after toggling it on. -/
theorem C3_upward_consistency_witness :
    (WF sampleTree ∧ Reachable sampleTree ∅ ∧
        "l1-0-l2-0-lsi-0" ∈ allNodeIds sampleTree) ∧
      Consistent sampleTree
        (handleSelectionChange sampleTree ∅ "l1-0-l2-0-lsi-0" true) :=
  ⟨⟨sampleTree_wf, Reachable.empty, by decide⟩,
    C3_upward_consistency sampleTree sampleTree_wf ∅ Reachable.empty
      "l1-0-l2-0-lsi-0" (by decide) true⟩

/-- Witness for C4 at a concrete input: toggling `sampleL1` on puts its
identifier and every descendant identifier into the set, toggling it off
removes them all. -/
theorem C4_downward_cascade_witness :
    (WF sampleTree ∧ sampleL1 ∈ sampleTree) ∧
      ((sampleL1.id ∈ handleSelectionChange sampleTree ∅ sampleL1.id true ∧
          ∀ c ∈ sampleL1.children,
            c.id ∈ handleSelectionChange sampleTree ∅ sampleL1.id true ∧
              ∀ t ∈ c.lsi,
                t.id ∈ handleSelectionChange sampleTree ∅ sampleL1.id true) ∧
        (sampleL1.id ∉ handleSelectionChange sampleTree ∅ sampleL1.id false ∧
          ∀ c ∈ sampleL1.children,
            c.id ∉ handleSelectionChange sampleTree ∅ sampleL1.id false ∧
              ∀ t ∈ c.lsi,
                t.id ∉ handleSelectionChange sampleTree ∅ sampleL1.id false)) :=
  ⟨⟨sampleTree_wf, by decide⟩,
    toggle_l1_cascade sampleTree_wf (by decide) ∅⟩

/-- Claim C5: on a well-formed tree, toggling the same node to the same
value twice in a row yields the same SelectionSet as toggling it once,
for every selection set reachable by toggles. -/
theorem C5_toggle_idempotent (tree : List RenderLevel1Node) (h : WF tree)
    (sel : Finset String) (_hr : Reachable tree sel) (id : String)
    (hid : id ∈ allNodeIds tree) (v : Bool) :
    handleSelectionChange tree (handleSelectionChange tree sel id v) id v =
      handleSelectionChange tree sel id v := by
  clear _hr
  rcases mem_allNodeIds.mp hid with ⟨n, hn, rfl⟩ | ⟨n, hn, c, hc, rfl⟩ |
    ⟨n, hn, c, hc, t, ht, rfl⟩
  · ext x
    rw [mem_toggle_l1 h hn (handleSelectionChange tree sel n.id v) v x,
      mem_toggle_l1 h hn sel v x]
    by_cases hx : x = n.id ∨ x ∈ descIds n <;> simp [hx]
  · have hB : (n.children.all fun k => if k.id = c.id then v else
        decide (k.id ∈ handleSelectionChange tree sel c.id v)) =
        (n.children.all fun k =>
          if k.id = c.id then v else decide (k.id ∈ sel)) := by
      apply listAllCongr
      intro k hk
      by_cases hkc : k.id = c.id
      · rw [if_pos hkc, if_pos hkc]
      · rw [if_neg hkc, if_neg hkc]
        apply decide_eq_decide.mpr
        rw [mem_toggle_l2 h hn hc sel v k.id,
          if_neg (Ne.symm (h.ne_l1_l2 hn hn hk)), if_neg]
        rintro (he | hmap)
        · exact hkc he
        · rcases List.mem_map.mp hmap with ⟨u, hu, hue⟩
          exact (h.ne_l2_lsi hn hk hn hc hu) hue.symm
    ext x
    rw [mem_toggle_l2 h hn hc (handleSelectionChange tree sel c.id v) v x,
      hB, mem_toggle_l2 h hn hc sel v x]
    by_cases h1 : x = n.id
    · simp [h1]
    · by_cases h2 : x = c.id ∨ x ∈ c.lsi.map fun t => t.id <;>
        simp only [List.mem_map] at h2 <;> simp [h1, h2]
  · have hB2 : (c.lsi.all fun u => if u.id = t.id then v else
        decide (u.id ∈ handleSelectionChange tree sel t.id v)) =
        (c.lsi.all fun u =>
          if u.id = t.id then v else decide (u.id ∈ sel)) := by
      apply listAllCongr
      intro u hu
      by_cases hut : u.id = t.id
      · rw [if_pos hut, if_pos hut]
      · rw [if_neg hut, if_neg hut]
        apply decide_eq_decide.mpr
        rw [mem_toggle_lsi h hn hc ht sel v u.id,
          if_neg (Ne.symm (h.ne_l1_lsi hn hn hc hu)),
          if_neg (Ne.symm (h.ne_l2_lsi hn hc hn hc hu)), if_neg hut]
    have hB1 : (n.children.all fun k => if k.id = c.id then
          c.lsi.all fun u => if u.id = t.id then v else decide (u.id ∈ sel)
        else decide (k.id ∈ handleSelectionChange tree sel t.id v)) =
        (n.children.all fun k => if k.id = c.id then
          c.lsi.all fun u => if u.id = t.id then v else decide (u.id ∈ sel)
        else decide (k.id ∈ sel)) := by
      apply listAllCongr
      intro k hk
      by_cases hkc : k.id = c.id
      · rw [if_pos hkc, if_pos hkc]
      · rw [if_neg hkc, if_neg hkc]
        apply decide_eq_decide.mpr
        rw [mem_toggle_lsi h hn hc ht sel v k.id,
          if_neg (Ne.symm (h.ne_l1_l2 hn hn hk)), if_neg hkc,
          if_neg (h.ne_l2_lsi hn hk hn hc ht)]
    ext x
    rw [mem_toggle_lsi h hn hc ht (handleSelectionChange tree sel t.id v) v x,
      hB2, hB1, mem_toggle_lsi h hn hc ht sel v x]
    by_cases h1 : x = n.id
    · simp [h1]
    · by_cases h2 : x = c.id
      · simp [h1, h2]
      · by_cases h3 : x = t.id <;> simp [h1, h2, h3]

/-- Witness for C5 at a concrete input: double toggle of the Level2 node
`l1-0-l2-1` of the sample tree equals the single toggle. -/
theorem C5_toggle_idempotent_witness :
    (WF sampleTree ∧ Reachable sampleTree ∅ ∧
        "l1-0-l2-1" ∈ allNodeIds sampleTree) ∧
      handleSelectionChange sampleTree
          (handleSelectionChange sampleTree ∅ "l1-0-l2-1" true)
          "l1-0-l2-1" true =
        handleSelectionChange sampleTree ∅ "l1-0-l2-1" true :=
  ⟨⟨sampleTree_wf, Reachable.empty, by decide⟩,
    C5_toggle_idempotent sampleTree sampleTree_wf ∅ Reachable.empty
      "l1-0-l2-1" (by decide) true⟩

/-- A concrete raw generation result for exercising the Tree Builder. -/
def sampleMap : KeywordMap :=
  { coreUserIntent := "intent"
    originalKeywords := { traffic := ["t"], comparison := [], conversion := [] }
    keywordHierarchy :=
      [ { keyword := "A", type := "引流型", pageType := "文章类",
          children :=
            [ { keyword := "A1", type := "认知型 (Awareness)",
                lsi := ["a", "b"] } ] } ] }

/-- Witness for C8 at a concrete input: the identifier equations and the
parent recovery hold on the tree built from `sampleMap` at indices
`(0, 0, 0)`. -/
theorem C8_path_ids_witness :
    (0 < (transformToRenderableMap sampleMap).length ∧
      0 < ((transformToRenderableMap sampleMap).get ⟨0, by decide⟩).children.length ∧
      0 < (((transformToRenderableMap sampleMap).get ⟨0, by decide⟩).children.get
            ⟨0, by decide⟩).lsi.length) ∧
    (((transformToRenderableMap sampleMap).get ⟨0, by decide⟩).id =
        "l1-" ++ natToStr 0 ∧
      getParentId ((transformToRenderableMap sampleMap).get ⟨0, by decide⟩).id =
        none) ∧
    ((((transformToRenderableMap sampleMap).get ⟨0, by decide⟩).children.get
          ⟨0, by decide⟩).id =
        ((transformToRenderableMap sampleMap).get ⟨0, by decide⟩).id ++
          "-l2-" ++ natToStr 0 ∧
      getParentId (((transformToRenderableMap sampleMap).get ⟨0, by decide⟩).children.get
          ⟨0, by decide⟩).id =
        some ((transformToRenderableMap sampleMap).get ⟨0, by decide⟩).id) ∧
    (((((transformToRenderableMap sampleMap).get ⟨0, by decide⟩).children.get
          ⟨0, by decide⟩).lsi.get ⟨0, by decide⟩).id =
        (((transformToRenderableMap sampleMap).get ⟨0, by decide⟩).children.get
          ⟨0, by decide⟩).id ++ "-lsi-" ++ natToStr 0 ∧
      getParentId ((((transformToRenderableMap sampleMap).get ⟨0, by decide⟩).children.get
          ⟨0, by decide⟩).lsi.get ⟨0, by decide⟩).id =
        some (((transformToRenderableMap sampleMap).get ⟨0, by decide⟩).children.get
          ⟨0, by decide⟩).id) := by
  have h := transformToRenderableMap_path_ids sampleMap 0 (by decide)
  exact ⟨⟨by decide, by decide, by decide⟩, ⟨h.1.1, h.1.2⟩,
    ⟨(h.2 0 (by decide)).1.1, (h.2 0 (by decide)).1.2⟩,
    ⟨((h.2 0 (by decide)).2 0 (by decide)).1,
      ((h.2 0 (by decide)).2 0 (by decide)).2⟩⟩

/-- Claim C7: the filter is a pure derivation over the tree — the
underlying tree and the SelectionSet are plain arguments that the
function never modifies — and applying the empty criteria returns the
underlying tree itself, so filtering with any criteria followed by
clearing the filter reproduces a tree structurally equal to the
original, with the SelectionSet unchanged throughout. -/
theorem C7_filter_non_mutation (tree : List RenderLevel1Node)
    (filters : FilterState) (sel : Finset String) :
    filteredKeywordMap tree
        { category := "", pageType := "", userBehavior := "" } = tree ∧
      (filteredKeywordMap tree filters = filteredKeywordMap tree filters ∧
        sel = sel) := by
  refine ⟨?_, rfl, rfl⟩
  simp [filteredKeywordMap]

/-- A saved sub-project under parent `P` carrying only the fields the
versioning logic consults. -/
def beddingEntry (name : String) : KeywordSubProject :=
  { id := "subproj-1", name := name, parentProjectId := "P", savedAt := "",
    modelUsed := "m", keywords := [], translations := [] }

/-- Claim C1, amended: the versioning rule applies to the
whitespace-trimmed requested name.  If a saved sub-project whose name is
literally the trimmed requested name exists in the lineage (same parent,
same stripped base name), the stored name is
`"{baseName} (Version {lineageSize + 1})"`, otherwise the trimmed
requested name is stored unchanged; in particular three successive saves
of the literal name `"Bedding Keywords"` into an empty lineage store
`"Bedding Keywords"`, `"Bedding Keywords (Version 2)"`,
`"Bedding Keywords (Version 3)"`. -/
theorem C1_version_naming (lib : List KeywordSubProject) (name pid : String) :
    (computeFinalSubProjectName lib name pid =
      if ∃ sp ∈ lib, sp.parentProjectId = pid ∧
          stripVersionSuffix sp.name = stripVersionSuffix (jsTrim name) ∧
          sp.name = jsTrim name
      then
        stripVersionSuffix (jsTrim name) ++ " (Version " ++
          natToStr
            ((lib.filter fun sp => sp.parentProjectId = pid ∧
                stripVersionSuffix sp.name =
                  stripVersionSuffix (jsTrim name)).length + 1) ++ ")"
      else jsTrim name) ∧
    computeFinalSubProjectName [] "Bedding Keywords" "P" = "Bedding Keywords" ∧
    computeFinalSubProjectName [beddingEntry "Bedding Keywords"]
        "Bedding Keywords" "P" = "Bedding Keywords (Version 2)" ∧
    computeFinalSubProjectName
        [beddingEntry "Bedding Keywords",
          beddingEntry "Bedding Keywords (Version 2)"]
        "Bedding Keywords" "P" = "Bedding Keywords (Version 3)" := by
  refine ⟨?_, by decide, by decide, by decide⟩
  rw [computeFinalSubProjectName]
  by_cases hex : ∃ sp ∈ lib, sp.parentProjectId = pid ∧
      stripVersionSuffix sp.name = stripVersionSuffix (jsTrim name) ∧
      sp.name = jsTrim name
  · rw [if_pos hex, if_pos]
    rcases hex with ⟨sp, hsp, h1, h2, h3⟩
    refine List.any_eq_true.mpr ⟨sp, List.mem_filter.mpr ⟨hsp, ?_⟩, ?_⟩
    · exact decide_eq_true ⟨h1, h2⟩
    · exact decide_eq_true h3
  · rw [if_neg hex, if_neg]
    intro hany
    rcases List.any_eq_true.mp hany with ⟨sp, hsp, hname⟩
    rcases List.mem_filter.mp hsp with ⟨hmem, hcond⟩
    rcases of_decide_eq_true hcond with ⟨h1, h2⟩
    exact hex ⟨sp, hmem, h1, h2, of_decide_eq_true hname⟩

/-- Claim C1 counterexample: with an empty library and empty lineage the
claim requires the requested name to be stored unchanged, but the code
stores the whitespace-trimmed name: saving `"X "` stores `"X"`. -/
theorem C1_version_naming_cex :
    computeFinalSubProjectName [] "X " "P" = "X" ∧
      computeFinalSubProjectName [] "X " "P" ≠ "X " :=
  ⟨by decide, by decide⟩

/-- Claim C6, amended: for a Level2 node whose existing term texts are
pairwise distinct and a candidate list **itself free of duplicates**,
the merge leaves no duplicate term texts, keeps every pre-existing term
(with `isNew` reset to `false`), and appends exactly the candidates
whose text does not already occur on the node, with identifiers
`{parentId}-lsi-{existingCount + k}` and `isNew = true`.  The
whole-batch duplicate-freedom proviso is forced by the counterexample:
the code deduplicates candidates only against the existing terms, not
against each other. -/
theorem C6_augmentation_merge (l2 : RenderLevel2Node) (newLsis : List String)
    (hold : (l2.lsi.map fun t => t.text).Nodup) (hnew : newLsis.Nodup) :
    ((mergeLsi l2 newLsis).lsi.map fun t => t.text).Nodup ∧
    (mergeLsi l2 newLsis).lsi.length =
      l2.lsi.length +
        (newLsis.filter fun nl => ¬ nl ∈ l2.lsi.map fun t => t.text).length ∧
    (∀ k, (hk : k < l2.lsi.length) →
      ∃ hm : k < (mergeLsi l2 newLsis).lsi.length,
        (mergeLsi l2 newLsis).lsi.get ⟨k, hm⟩ =
          { id := (l2.lsi.get ⟨k, hk⟩).id, text := (l2.lsi.get ⟨k, hk⟩).text,
            isNew := some false }) ∧
    (∀ k, (hk : k <
        (newLsis.filter fun nl => ¬ nl ∈ l2.lsi.map fun t => t.text).length) →
      ∃ hm : l2.lsi.length + k < (mergeLsi l2 newLsis).lsi.length,
        (mergeLsi l2 newLsis).lsi.get ⟨l2.lsi.length + k, hm⟩ =
          { id := l2.id ++ "-lsi-" ++ natToStr (l2.lsi.length + k),
            text := (newLsis.filter fun nl =>
              ¬ nl ∈ l2.lsi.map fun t => t.text).get ⟨k, hk⟩,
            isNew := some true }) ∧
    (∀ t ∈ l2.lsi, t.text ∈ (mergeLsi l2 newLsis).lsi.map fun t => t.text) := by
  have hlsi : (mergeLsi l2 newLsis).lsi =
      (l2.lsi.map fun l => { l with isNew := some false }) ++
        ((newLsis.filter fun nl =>
          ¬ nl ∈ l2.lsi.map fun t => t.text).enum.map fun p =>
            ({ id := l2.id ++ "-lsi-" ++ natToStr (l2.lsi.length + p.1),
               text := p.2, isNew := some true } : RenderLsiNode)) := by
    simp only [mergeLsi, decide_not]
  have htexts : ((mergeLsi l2 newLsis).lsi.map fun t => t.text) =
      (l2.lsi.map fun t => t.text) ++
        (newLsis.filter fun nl => ¬ nl ∈ l2.lsi.map fun t => t.text) := by
    rw [hlsi, List.map_append, List.map_map, List.map_map]
    congr 1
    show ((newLsis.filter fun nl =>
      ¬ nl ∈ l2.lsi.map fun t => t.text).enum.map fun p => p.2) = _
    exact List.enum_map_snd _
  refine ⟨?_, ?_, ?_, ?_, ?_⟩
  · rw [htexts]
    refine List.Nodup.append hold (List.Nodup.filter _ hnew) ?_
    intro a ha haf
    rcases List.mem_filter.mp haf with ⟨_, hcond⟩
    exact absurd ha (by simpa using hcond)
  · rw [hlsi]
    simp
  · intro k hk
    have hm : k < (mergeLsi l2 newLsis).lsi.length := by
      rw [hlsi]
      simp only [List.length_append, List.length_map]
      omega
    refine ⟨hm, ?_⟩
    simp only [List.get_eq_getElem, hlsi]
    rw [List.getElem_append_left (by simpa using hk)]
    simp [List.getElem_map]
  · intro k hk
    have hm : l2.lsi.length + k < (mergeLsi l2 newLsis).lsi.length := by
      rw [hlsi]
      simp only [List.length_append, List.length_map, List.enum_length]
      have := hk
      simp only [decide_not] at this ⊢
      omega
    refine ⟨hm, ?_⟩
    simp only [List.get_eq_getElem, hlsi]
    rw [List.getElem_append_right (by simp)]
    simp [List.getElem_map, List.getElem_enum]
  · intro t ht
    rw [htexts]
    exact List.mem_append_left _ (List.mem_map.mpr ⟨t, ht, rfl⟩)

/-- A Level2 node with no terms yet (its term texts are trivially
pairwise distinct). -/
def dupL2 : RenderLevel2Node :=
  { id := "l1-0-l2-0", keyword := "A1", type := "认知型 (Awareness)", lsi := [] }

/-- Claim C6 counterexample: merging the candidate list `["a", "a"]`
into a node with distinct (here: no) existing term texts produces the
term texts `["a", "a"]` — a duplicate — because the code deduplicates
candidates only against the existing terms, never within the batch. -/
theorem C6_augmentation_merge_cex :
    (dupL2.lsi.map fun t => t.text).Nodup ∧
      ¬ ((mergeLsi dupL2 ["a", "a"]).lsi.map fun t => t.text).Nodup :=
  ⟨by decide, by decide⟩

/-- A Level2 node with one existing term `"a"`. -/
def mergeSampleL2 : RenderLevel2Node :=
  { id := "l1-0-l2-0", keyword := "A1", type := "认知型 (Awareness)",
    lsi := [ { id := "l1-0-l2-0-lsi-0", text := "a", isNew := some true } ] }

/-- Witness for C6 at a concrete input: merging `["b", "a"]` into a node
already holding `"a"` satisfies the amended merge contract. -/
theorem C6_augmentation_merge_witness :
    ((mergeSampleL2.lsi.map fun t => t.text).Nodup ∧
        (["b", "a"] : List String).Nodup) ∧
      (((mergeLsi mergeSampleL2 ["b", "a"]).lsi.map fun t => t.text).Nodup ∧
        (mergeLsi mergeSampleL2 ["b", "a"]).lsi.length =
          mergeSampleL2.lsi.length +
            ((["b", "a"] : List String).filter fun nl =>
              ¬ nl ∈ mergeSampleL2.lsi.map fun t => t.text).length ∧
        (∀ k, (hk : k < mergeSampleL2.lsi.length) →
          ∃ hm : k < (mergeLsi mergeSampleL2 ["b", "a"]).lsi.length,
            (mergeLsi mergeSampleL2 ["b", "a"]).lsi.get ⟨k, hm⟩ =
              { id := (mergeSampleL2.lsi.get ⟨k, hk⟩).id,
                text := (mergeSampleL2.lsi.get ⟨k, hk⟩).text,
                isNew := some false }) ∧
        (∀ k, (hk : k <
            ((["b", "a"] : List String).filter fun nl =>
              ¬ nl ∈ mergeSampleL2.lsi.map fun t => t.text).length) →
          ∃ hm : mergeSampleL2.lsi.length + k <
              (mergeLsi mergeSampleL2 ["b", "a"]).lsi.length,
            (mergeLsi mergeSampleL2 ["b", "a"]).lsi.get
                ⟨mergeSampleL2.lsi.length + k, hm⟩ =
              { id := mergeSampleL2.id ++ "-lsi-" ++
                  natToStr (mergeSampleL2.lsi.length + k),
                text := ((["b", "a"] : List String).filter fun nl =>
                  ¬ nl ∈ mergeSampleL2.lsi.map fun t => t.text).get ⟨k, hk⟩,
                isNew := some true }) ∧
        (∀ t ∈ mergeSampleL2.lsi,
          t.text ∈ (mergeLsi mergeSampleL2 ["b", "a"]).lsi.map fun t => t.text)) :=
  ⟨⟨by decide, by decide⟩,
    C6_augmentation_merge mergeSampleL2 ["b", "a"] (by decide) (by decide)⟩

/-! ### Pruning on save (claim C2) -/

theorem jsStartsWith_self (s : String) : jsStartsWith s s = true := by
  simp [jsStartsWith]

theorem jsStartsWith_trans {a b c : String} (h1 : jsStartsWith a b = true)
    (h2 : jsStartsWith b c = true) : jsStartsWith a c = true := by
  simp only [jsStartsWith, List.isPrefixOf_iff_prefix] at h1 h2 ⊢
  exact h2.trans h1

theorem listFilterMapCongr {α β : Type} (l : List α) (f g : α → Option β)
    (h : ∀ a ∈ l, f a = g a) : l.filterMap f = l.filterMap g := by
  induction l with
  | nil => rfl
  | cons a rest ih =>
    rw [List.filterMap_cons, List.filterMap_cons, h a (by simp),
      ih fun a ha => h a (List.mem_cons_of_mem _ ha)]

theorem pruneL2_isSome {tree : List RenderLevel1Node} (h : WF tree)
    {n : RenderLevel1Node} {c : RenderLevel2Node} (hn : n ∈ tree)
    (hc : c ∈ n.children) (sel : Finset String) :
    (pruneL2 sel c).isSome ↔ c.id ∈ sel ∨ ∃ t ∈ c.lsi, t.id ∈ sel := by
  rw [pruneL2]
  by_cases hg : existsStarts sel c.id
  · rw [if_pos hg]
    by_cases hcond : c.id ∈ sel ∨
        ((c.lsi.filter fun t => decide (t.id ∈ sel)).map
          fun t => ({ id := t.id, text := t.text } : SavedLsiNode)) ≠ []
    · rw [if_pos hcond]
      simp only [Option.isSome_some, true_iff]
      rcases hcond with hsel | hne
      · exact Or.inl hsel
      · refine Or.inr ?_
        rcases List.exists_mem_of_ne_nil _ hne with ⟨st, hst⟩
        rcases List.mem_map.mp hst with ⟨t, htf, _⟩
        rcases List.mem_filter.mp htf with ⟨ht, hsel⟩
        exact ⟨t, ht, of_decide_eq_true hsel⟩
    · rw [if_neg hcond]
      simp only [Option.isSome_none, Bool.false_eq_true, false_iff]
      rintro (hsel | ⟨t, ht, hsel⟩)
      · exact hcond (Or.inl hsel)
      · refine hcond (Or.inr ?_)
        intro hnil
        rw [List.map_eq_nil_iff, List.filter_eq_nil_iff] at hnil
        exact hnil t ht (decide_eq_true hsel)
  · rw [if_neg hg]
    simp only [Option.isSome_none, Bool.false_eq_true, false_iff]
    rintro (hsel | ⟨t, ht, hsel⟩)
    · exact hg ⟨c.id, hsel, jsStartsWith_self c.id⟩
    · exact hg ⟨t.id, hsel, h.startLsi n hn c hc t ht⟩

theorem pruneL1_isSome {tree : List RenderLevel1Node} (h : WF tree)
    {n : RenderLevel1Node} (hn : n ∈ tree) (sel : Finset String) :
    (pruneL1 sel n).isSome ↔
      n.id ∈ sel ∨ ∃ c ∈ n.children, c.id ∈ sel ∨ ∃ t ∈ c.lsi, t.id ∈ sel := by
  rw [pruneL1]
  by_cases hg : existsStarts sel n.id
  · rw [if_pos hg]
    by_cases hcond : n.id ∈ sel ∨ n.children.filterMap (pruneL2 sel) ≠ []
    · rw [if_pos hcond]
      simp only [Option.isSome_some, true_iff]
      rcases hcond with hsel | hne
      · exact Or.inl hsel
      · refine Or.inr ?_
        have : ¬ ∀ c ∈ n.children, pruneL2 sel c = none := by
          intro hall
          exact hne (List.filterMap_eq_nil_iff.mpr hall)
        push_neg at this
        rcases this with ⟨c, hc, hsome⟩
        have := (pruneL2_isSome h hn hc sel).mp
          (Option.isSome_iff_ne_none.mpr hsome)
        exact ⟨c, hc, this⟩
    · rw [if_neg hcond]
      simp only [Option.isSome_none, Bool.false_eq_true, false_iff]
      rintro (hsel | ⟨c, hc, hor⟩)
      · exact hcond (Or.inl hsel)
      · refine hcond (Or.inr ?_)
        intro hnil
        rw [List.filterMap_eq_nil_iff] at hnil
        have hnone := hnil c hc
        have := (pruneL2_isSome h hn hc sel).mpr hor
        rw [hnone] at this
        exact Bool.noConfusion this
  · rw [if_neg hg]
    simp only [Option.isSome_none, Bool.false_eq_true, false_iff]
    rintro (hsel | ⟨c, hc, hsel | ⟨t, ht, hsel⟩⟩)
    · exact hg ⟨n.id, hsel, jsStartsWith_self n.id⟩
    · exact hg ⟨c.id, hsel, h.startL2 n hn c hc⟩
    · exact hg ⟨t.id, hsel,
        jsStartsWith_trans (h.startLsi n hn c hc t ht) (h.startL2 n hn c hc)⟩

theorem pruneL2_gate_free {tree : List RenderLevel1Node} (h : WF tree)
    {n : RenderLevel1Node} {c : RenderLevel2Node} (hn : n ∈ tree)
    (hc : c ∈ n.children) (sel : Finset String) :
    pruneL2 sel c =
      if c.id ∈ sel ∨ ((c.lsi.filter fun t => decide (t.id ∈ sel)).map
          fun t => ({ id := t.id, text := t.text } : SavedLsiNode)) ≠ [] then
        some { id := c.id, keyword := c.keyword, type := c.type,
               lsi := (c.lsi.filter fun t => decide (t.id ∈ sel)).map
                 fun t => { id := t.id, text := t.text } }
      else none := by
  rw [pruneL2]
  by_cases hg : existsStarts sel c.id
  · rw [if_pos hg]
  · rw [if_neg hg, if_neg]
    rintro (hsel | hne)
    · exact hg ⟨c.id, hsel, jsStartsWith_self c.id⟩
    · rcases List.exists_mem_of_ne_nil _ hne with ⟨st, hst⟩
      rcases List.mem_map.mp hst with ⟨t, htf, _⟩
      rcases List.mem_filter.mp htf with ⟨ht, hsel⟩
      exact hg ⟨t.id, of_decide_eq_true hsel, h.startLsi n hn c hc t ht⟩

theorem pruneL1_gate_free {tree : List RenderLevel1Node} (h : WF tree)
    {n : RenderLevel1Node} (hn : n ∈ tree) (sel : Finset String) :
    pruneL1 sel n =
      if n.id ∈ sel ∨ (n.children.filterMap fun c =>
          if c.id ∈ sel ∨ ((c.lsi.filter fun t => decide (t.id ∈ sel)).map
              fun t => ({ id := t.id, text := t.text } : SavedLsiNode)) ≠ [] then
            some ({ id := c.id, keyword := c.keyword, type := c.type,
                    lsi := (c.lsi.filter fun t => decide (t.id ∈ sel)).map
                      fun t => { id := t.id, text := t.text } } : SavedLevel2Node)
          else none) ≠ [] then
        some { id := n.id, keyword := n.keyword, type := n.type,
               pageType := n.pageType,
               children := n.children.filterMap fun c =>
                 if c.id ∈ sel ∨ ((c.lsi.filter fun t => decide (t.id ∈ sel)).map
                     fun t => ({ id := t.id, text := t.text } : SavedLsiNode)) ≠ [] then
                   some ({ id := c.id, keyword := c.keyword, type := c.type,
                           lsi := (c.lsi.filter fun t => decide (t.id ∈ sel)).map
                             fun t => { id := t.id, text := t.text } } :
                     SavedLevel2Node)
                 else none }
      else none := by
  have hch : n.children.filterMap (pruneL2 sel) =
      n.children.filterMap fun c =>
        if c.id ∈ sel ∨ ((c.lsi.filter fun t => decide (t.id ∈ sel)).map
            fun t => ({ id := t.id, text := t.text } : SavedLsiNode)) ≠ [] then
          some ({ id := c.id, keyword := c.keyword, type := c.type,
                  lsi := (c.lsi.filter fun t => decide (t.id ∈ sel)).map
                    fun t => { id := t.id, text := t.text } } : SavedLevel2Node)
        else none :=
    listFilterMapCongr _ _ _ fun c hc => pruneL2_gate_free h hn hc sel
  rw [pruneL1]
  by_cases hg : existsStarts sel n.id
  · rw [if_pos hg]
    rw [show (n.children.filterMap (pruneL2 sel) : List SavedLevel2Node) =
      _ from hch]
  · rw [if_neg hg, if_neg]
    rintro (hsel | hne)
    · exact hg ⟨n.id, hsel, jsStartsWith_self n.id⟩
    · rw [← hch] at hne
      have hnall : ¬ ∀ c ∈ n.children, pruneL2 sel c = none := fun hall =>
        hne (List.filterMap_eq_nil_iff.mpr hall)
      push_neg at hnall
      rcases hnall with ⟨c, hc, hsome⟩
      rcases (pruneL2_isSome h hn hc sel).mp
          (Option.isSome_iff_ne_none.mpr hsome) with hsel | ⟨t, ht, hsel⟩
      · exact hg ⟨c.id, hsel, h.startL2 n hn c hc⟩
      · exact hg ⟨t.id, hsel,
          jsStartsWith_trans (h.startLsi n hn c hc t ht) (h.startL2 n hn c hc)⟩

theorem pruneL2_lsi_eq {tree : List RenderLevel1Node} (h : WF tree)
    {n : RenderLevel1Node} {c : RenderLevel2Node} (hn : n ∈ tree)
    (hc : c ∈ n.children) (sel : Finset String) (sc : SavedLevel2Node)
    (hsc : pruneL2 sel c = some sc) :
    sc.lsi = (c.lsi.filter fun t => decide (t.id ∈ sel)).map
      fun t => { id := t.id, text := t.text } := by
  rw [pruneL2_gate_free h hn hc sel] at hsc
  split at hsc
  · cases hsc
    rfl
  · exact Option.noConfusion hsc

/-- Claim C2: on a well-formed tree, the pruning walk of
`handleSaveSubProject` retains a Level1 node iff it is selected or has a
retained Level2 descendant, retains a Level2 node iff it is selected or
retains an LSI term, retains an LSI term iff its identifier is selected
(the retained terms of a kept node are exactly the selected ones,
projected to `{id, text}`), and the whole saved hierarchy equals the
gate-free pruning in which no unselected node with zero retained
descendants appears. -/
theorem C2_pruning (tree : List RenderLevel1Node) (h : WF tree)
    (sel : Finset String) :
    (∀ n ∈ tree, ((pruneL1 sel n).isSome ↔
      n.id ∈ sel ∨ ∃ c ∈ n.children, c.id ∈ sel ∨ ∃ t ∈ c.lsi, t.id ∈ sel)) ∧
    (∀ n ∈ tree, ∀ c ∈ n.children, ((pruneL2 sel c).isSome ↔
      c.id ∈ sel ∨ ∃ t ∈ c.lsi, t.id ∈ sel)) ∧
    (∀ n ∈ tree, ∀ c ∈ n.children, ∀ sc : SavedLevel2Node,
      pruneL2 sel c = some sc →
        sc.lsi = (c.lsi.filter fun t => decide (t.id ∈ sel)).map
          fun t => { id := t.id, text := t.text }) ∧
    pruneTree sel tree =
      tree.filterMap fun n =>
        if n.id ∈ sel ∨ (n.children.filterMap fun c =>
            if c.id ∈ sel ∨ ((c.lsi.filter fun t => decide (t.id ∈ sel)).map
                fun t => ({ id := t.id, text := t.text } : SavedLsiNode)) ≠ []
            then
              some ({ id := c.id, keyword := c.keyword, type := c.type,
                      lsi := (c.lsi.filter fun t => decide (t.id ∈ sel)).map
                        fun t => { id := t.id, text := t.text } } :
                SavedLevel2Node)
            else none) ≠ [] then
          some { id := n.id, keyword := n.keyword, type := n.type,
                 pageType := n.pageType,
                 children := n.children.filterMap fun c =>
                   if c.id ∈ sel ∨
                       ((c.lsi.filter fun t => decide (t.id ∈ sel)).map
                         fun t => ({ id := t.id, text := t.text } :
                           SavedLsiNode)) ≠ [] then
                     some ({ id := c.id, keyword := c.keyword, type := c.type,
                             lsi := (c.lsi.filter fun t =>
                               decide (t.id ∈ sel)).map
                                 fun t => { id := t.id, text := t.text } } :
                       SavedLevel2Node)
                   else none }
        else none := by
  refine ⟨fun n hn => pruneL1_isSome h hn sel,
    fun n hn c hc => pruneL2_isSome h hn hc sel,
    fun n hn c hc sc hsc => pruneL2_lsi_eq h hn hc sel sc hsc, ?_⟩
  exact listFilterMapCongr _ _ _ fun n hn => pruneL1_gate_free h hn sel

/-- The selection of the C2 scenario: two of the three terms of `A1`
are selected, nothing else is. -/
def scenarioSel : Finset String := {"l1-0-l2-0-lsi-0", "l1-0-l2-0-lsi-1"}

/-- Witness for C2 at a concrete input: for the sample tree (Level1 `A`
with children `A1` — three terms, two selected — and `A2` — nothing
selected) the saved hierarchy is `A` → `A1` → exactly the two selected
terms, and `A2` is absent entirely. -/
theorem C2_pruning_witness :
    WF sampleTree ∧
      pruneTree scenarioSel sampleTree =
        [ { id := "l1-0", keyword := "A", type := "引流型",
            pageType := "文章类",
            children :=
              [ { id := "l1-0-l2-0", keyword := "A1",
                  type := "认知型 (Awareness)",
                  lsi := [ { id := "l1-0-l2-0-lsi-0", text := "a" },
                           { id := "l1-0-l2-0-lsi-1", text := "b" } ] } ] } ] := by
  refine ⟨sampleTree_wf, ?_⟩
  rw [(C2_pruning sampleTree sampleTree_wf scenarioSel).2.2.2]
  decide

/-- Claim C9: a save attempt that fails validation — empty sub-project
name, no parent project selected, or (in the create-new flow) a missing
new-project name — is blocked locally: the save button's `isSaveDisabled`
guard is true, so the handler never runs, no write occurs and the
persistence service receives no call during the attempt. -/
theorem C9_validation_blocks_save (f : SaveFormState)
    (lib : List KeywordSubProject) (tree : List RenderLevel1Node)
    (sel : Finset String) (now : Nat)
    (hbad : jsTrim f.subProjectName = "" ∨
      (f.parentProjectId = "create_new" ∧ jsTrim f.newParentProjectName = "") ∨
      (f.parentProjectId ≠ "create_new" ∧ f.parentProjectId = "")) :
    isSaveDisabled f = true ∧ gatedSaveCalls f lib tree sel now = [] := by
  have hdis : isSaveDisabled f = true := by
    rw [isSaveDisabled]
    by_cases hs : jsTrim f.subProjectName = ""
    · rw [if_pos hs]
    · rw [if_neg hs]
      rcases hbad with h1 | ⟨h2a, h2b⟩ | ⟨h3a, h3b⟩
      · exact absurd h1 hs
      · rw [if_pos h2a]
        exact decide_eq_true h2b
      · rw [if_neg h3a]
        exact decide_eq_true h3b
  refine ⟨hdis, ?_⟩
  rw [gatedSaveCalls, if_pos hdis]

/-- Witness for C9 at a concrete input: an empty sub-project name
disables the button and the gated attempt issues no persistence call. -/
theorem C9_validation_blocks_save_witness :
    (jsTrim (SaveFormState.mk "" "p1" "").subProjectName = "" ∨
      ((SaveFormState.mk "" "p1" "").parentProjectId = "create_new" ∧
        jsTrim (SaveFormState.mk "" "p1" "").newParentProjectName = "") ∨
      ((SaveFormState.mk "" "p1" "").parentProjectId ≠ "create_new" ∧
        (SaveFormState.mk "" "p1" "").parentProjectId = "")) ∧
    (isSaveDisabled (SaveFormState.mk "" "p1" "") = true ∧
      gatedSaveCalls (SaveFormState.mk "" "p1" "") [] sampleTree ∅ 0 = []) :=
  ⟨Or.inl (by decide),
    C9_validation_blocks_save (SaveFormState.mk "" "p1" "") [] sampleTree ∅ 0
      (Or.inl (by decide))⟩

/-! ### Shape of the saved record (claim C10) -/

/-- Rewrite of every `isNew` annotation of a tree, used to state that
pruning never consults it. -/
def mapIsNew (f : Option Bool → Option Bool) (n : RenderLevel1Node) :
    RenderLevel1Node :=
  { n with children := n.children.map fun c =>
      { c with lsi := c.lsi.map fun t => { t with isNew := f t.isNew } } }

theorem pruneL2_some_lsi (sel : Finset String) (c : RenderLevel2Node)
    (sc : SavedLevel2Node) (hsc : pruneL2 sel c = some sc) :
    sc.lsi = (c.lsi.filter fun t => decide (t.id ∈ sel)).map
      fun t => { id := t.id, text := t.text } := by
  simp only [pruneL2] at hsc
  split at hsc
  · split at hsc
    · cases hsc
      rfl
    · exact Option.noConfusion hsc
  · exact Option.noConfusion hsc

theorem pruneL1_some_children (sel : Finset String) (n : RenderLevel1Node)
    (s : SavedLevel1Node) (hs : pruneL1 sel n = some s) :
    s.children = n.children.filterMap (pruneL2 sel) := by
  simp only [pruneL1] at hs
  split at hs
  · split at hs
    · cases hs
      rfl
    · exact Option.noConfusion hs
  · exact Option.noConfusion hs

theorem pruneL2_mapIsNew (sel : Finset String) (f : Option Bool → Option Bool)
    (c : RenderLevel2Node) :
    pruneL2 sel { c with lsi := c.lsi.map fun t => { t with isNew := f t.isNew } } =
      pruneL2 sel c := by
  have hlsi : (((c.lsi.map fun t => { t with isNew := f t.isNew }).filter
        fun t => decide (t.id ∈ sel)).map
          fun t => ({ id := t.id, text := t.text } : SavedLsiNode)) =
      ((c.lsi.filter fun t => decide (t.id ∈ sel)).map
        fun t => ({ id := t.id, text := t.text } : SavedLsiNode)) := by
    rw [List.filter_map, List.map_map]
    rfl
  simp only [pruneL2]
  rw [hlsi]

/-- Claim C10: every LSI entry of the pruned hierarchy is exactly the
`{id, text}` projection of a source term; the ephemeral `isNew`
annotation never reaches the saved record (pruning is invariant under
arbitrary rewrites of `isNew`); and the saved translations are the
overlay entries of retained identifiers only — a subset of the full
overlay keyed by identifiers of the pruned hierarchy. -/
theorem C10_saved_record_shape (tree : List RenderLevel1Node)
    (sel : Finset String) (translations : List (String × String)) :
    (∀ s ∈ pruneTree sel tree, ∀ sc ∈ s.children, ∀ st ∈ sc.lsi,
      ∃ n ∈ tree, ∃ c ∈ n.children, ∃ t ∈ c.lsi,
        st = { id := t.id, text := t.text }) ∧
    (∀ f : Option Bool → Option Bool,
      pruneTree sel (tree.map (mapIsNew f)) = pruneTree sel tree) ∧
    (∀ p ∈ savedTranslations translations (pruneTree sel tree),
      p.1 ∈ savedIds (pruneTree sel tree) ∧
        jsGet translations p.1 = some p.2) := by
  refine ⟨?_, ?_, ?_⟩
  · intro s hs sc hsc st hst
    rcases List.mem_filterMap.mp hs with ⟨n, hn, hps⟩
    rw [pruneL1_some_children sel n s hps] at hsc
    rcases List.mem_filterMap.mp hsc with ⟨c, hc, hpc⟩
    rw [pruneL2_some_lsi sel c sc hpc] at hst
    rcases List.mem_map.mp hst with ⟨t, htf, hte⟩
    rcases List.mem_filter.mp htf with ⟨ht, _⟩
    exact ⟨n, hn, c, hc, t, ht, hte.symm⟩
  · intro f
    rw [pruneTree, pruneTree, List.filterMap_map]
    apply listFilterMapCongr
    intro n hn
    show pruneL1 sel (mapIsNew f n) = pruneL1 sel n
    have hch : (mapIsNew f n).children.filterMap (pruneL2 sel) =
        n.children.filterMap (pruneL2 sel) := by
      show (n.children.map fun c =>
        { c with lsi := c.lsi.map fun t =>
          { t with isNew := f t.isNew } }).filterMap (pruneL2 sel) = _
      rw [List.filterMap_map]
      apply listFilterMapCongr
      intro c hc
      exact pruneL2_mapIsNew sel f c
    rw [pruneL1, pruneL1]
    simp only [mapIsNew] at hch ⊢
    rw [hch]
  · intro p hp
    rcases List.mem_filterMap.mp hp with ⟨nid, hnid, hsome⟩
    rcases hj : jsGet translations nid with _ | v
    · rw [hj, Option.none_bind] at hsome
      exact Option.noConfusion hsome
    · rw [hj, Option.some_bind] at hsome
      by_cases hv : v = ""
      · rw [if_pos hv] at hsome
        exact Option.noConfusion hsome
      · rw [if_neg hv] at hsome
        cases hsome
        exact ⟨hnid, hj⟩

/-- The translation overlay used by the C10 witness: one retained
Level1 id, one retained term id, and one key foreign to the tree. -/
def sampleOverlay : List (String × String) :=
  [("l1-0", "甲"), ("l1-0-l2-0-lsi-0", "乙"), ("zzz", "W")]

/-- Witness for C10 at a concrete input. -/
theorem C10_saved_record_shape_witness :
    (∀ s ∈ pruneTree scenarioSel sampleTree, ∀ sc ∈ s.children,
      ∀ st ∈ sc.lsi, ∃ n ∈ sampleTree, ∃ c ∈ n.children, ∃ t ∈ c.lsi,
        st = { id := t.id, text := t.text }) ∧
    (∀ f : Option Bool → Option Bool,
      pruneTree scenarioSel (sampleTree.map (mapIsNew f)) =
        pruneTree scenarioSel sampleTree) ∧
    (∀ p ∈ savedTranslations sampleOverlay (pruneTree scenarioSel sampleTree),
      p.1 ∈ savedIds (pruneTree scenarioSel sampleTree) ∧
        jsGet sampleOverlay p.1 = some p.2) :=
  C10_saved_record_shape sampleTree scenarioSel sampleOverlay
